import Mathlib

/-!
Verification of the structjs binary struct/bitfield codec.

The development shallowly embeds the JavaScript sources:
  * Struct.js              (schema compiler, type registry, struct codec)
  * Bitfield.js            (the current version: the one defining Bitfield8,
                            static write methods, the width-overflow check in
                            the constructor, and the boolean JSON projection
                            for 1-bit fields)
  * PrimitiveTypes.js      (the primitive type table)

JavaScript numbers that appear as positions and sizes are modelled by `JNum`
(an integer or NaN); fractional positions are outside the model, as the
DataView layer coerces them through ToIndex.  JavaScript bitwise operators
(which act on 32-bit two's-complement integers, with shift counts taken
mod 32) are modelled exactly by `toInt32` / `toUint32` based functions.
64-bit integer data uses BigInt in the source and is modelled as exact `Int`.
Float32/Float64 data is modelled by its raw bit pattern (reading yields the
pattern, writing stores it); NaN payload canonicalisation performed by some
engines is outside the model.  Buffers are lists of bytes.
-/

namespace StructJS

/-! ## JavaScript numbers (integers and NaN) -/

/-- A JavaScript number as used for positions and sizes: either an integer
or NaN (`undefined` entering arithmetic also yields NaN and is merged into
this case). -/
inductive JNum where
  | nan : JNum
  | int (n : Int) : JNum
  deriving DecidableEq, Repr

/-- JS addition on positions/sizes: NaN propagates. -/
def jadd : JNum → JNum → JNum
  | .int a, .int b => .int (a + b)
  | _, _ => .nan

/-- JS multiplication on sizes: NaN propagates. -/
def jmul : JNum → JNum → JNum
  | .int a, .int b => .int (a * b)
  | _, _ => .nan

/-- JS comparison `a < b`: false whenever either side is NaN. -/
def jlt : JNum → JNum → Bool
  | .int a, .int b => a < b
  | _, _ => false

/-- JS comparison `a > b`: false whenever either side is NaN. -/
def jgt : JNum → JNum → Bool
  | .int a, .int b => a > b
  | _, _ => false

/-- `Number.isNaN`. -/
def jIsNaN : JNum → Bool
  | .nan => true
  | .int _ => false

/-! ## JavaScript 32-bit bitwise operator semantics

JS `>>`, `<<`, `&`, `|`, `~` convert their operands with ToInt32/ToUint32
(reduction mod 2^32, with `>>` arithmetic) and take shift counts mod 32. -/

/-- 2^32. -/
def pow32 : Nat := 4294967296

/-- ECMAScript ToUint32 on an integral number. -/
def toUint32 (x : Int) : Nat := (x % (pow32 : Int)).toNat

/-- ECMAScript ToInt32 on an integral number. -/
def toInt32 (x : Int) : Int :=
  if toUint32 x < 2 ^ 31 then (toUint32 x : Int) else (toUint32 x : Int) - (pow32 : Int)

/-- Shift count: ToUint32 of the right operand, mod 32. -/
def shamt (y : Int) : Nat := toUint32 y % 32

/-- JS `x << y`. -/
def jshl (x y : Int) : Int := toInt32 ((toUint32 x <<< shamt y : Nat) : Int)

/-- JS `x >> y` (sign-propagating right shift = flooring division of the
two's-complement value). -/
def jshr (x y : Int) : Int := Int.fdiv (toInt32 x) ((2 ^ shamt y : Nat) : Int)

/-- JS `x & y`. -/
def jand (x y : Int) : Int := toInt32 ((toUint32 x &&& toUint32 y : Nat) : Int)

/-- JS `x | y`. -/
def jor (x y : Int) : Int := toInt32 ((toUint32 x ||| toUint32 y : Nat) : Int)

/-- JS `~x` (complement of the 32-bit pattern). -/
def jnot (x : Int) : Int := toInt32 ((pow32 - 1 - toUint32 x : Nat) : Int)

/-! ## The bitfield getter and setter (Bitfield.js, constructor)

From the source (`get` and `set` of the per-field accessor):
  get: (this.value >> (this.bitlen() - bitOffsets[name] - length))
         & ((1 << length) - 1)
  set: mask = ((1 << length) - 1) << (this.bitlen() - bitOffsets[name] - length);
       this.value = (this.value & ~mask)
                  | ((bitValue << (this.bitlen() - bitOffsets[name] - length)) & mask)
`W` is `this.bitlen()`, `off` the accumulated bit offset, `len` the field
width; the arithmetic `W - off - len` is exact JS number arithmetic (it can
be negative in principle, hence computed in `Int`). -/

/-- The source getter for a number-valued bitfield. -/
def jsGet (W : Nat) (value : Int) (off len : Nat) : Int :=
  jand (jshr value ((W : Int) - (off : Int) - (len : Int)))
       (jshl 1 (len : Int) - 1)

/-- The source setter for a number-valued bitfield. -/
def jsSet (W : Nat) (value : Int) (off len : Nat) (bitValue : Int) : Int :=
  let sh : Int := (W : Int) - (off : Int) - (len : Int)
  let mask : Int := jshl (jshl 1 (len : Int) - 1) sh
  jor (jand value (jnot mask)) (jand (jshl bitValue sh) mask)

/-! ## Errors

The source throws `TypeError`, `RangeError` and plain `Error` objects with
message strings; here each distinct failure mode of interest is a
constructor (message text is recorded in comments at the throw sites). -/

inductive Err where
  /-- TypeError: non-DataView argument, reduce of an empty array with no
  initial value, mixing BigInt and Number operands, a value shape the
  modelled coercions do not cover, or a type without a write function. -/
  | typeError
  /-- RangeError: position outside the bounds of the DataView, or NaN. -/
  | rangeError
  /-- Error: "Invalid field declaration". -/
  | invalidDecl
  /-- Error: "Struct members cannot be of type string. Please use a char[] array." -/
  | stringField
  /-- Error: "Malformed bitfield descriptor". -/
  | malformedBitfield
  /-- Error: "No struct or type named ... registered." -/
  | unknownType
  /-- Error: "Cannot redefine primitive type" / "struct ... already registered." -/
  | nameConflict
  /-- Error: "The sum of the fields bit lengths should not exceed ..., got ... instead." -/
  | widthOverflow
  /-- Fuel exhaustion: an artefact of the fuel-indexed interpreter, never
  reached at sufficient fuel. -/
  | outOfFuel
  deriving DecidableEq, Repr

/-! ## Buffers and the DataView layer

A buffer is its list of bytes.  DataView getters and setters take a
position (as a `JNum`: ECMAScript ToIndex maps NaN to 0 and throws a
RangeError on negative values), perform a bounds check, and read or write
`n` bytes in the requested endianness.  Every operation returns the
resulting buffer so that frame properties are expressible; getters return
the buffer unchanged, which is exactly the platform guarantee for
DataView.prototype.getUint8 and friends. -/

abbrev Buffer := List Nat

/-- All stored bytes are in range. -/
def WFBuf (b : Buffer) : Prop := ∀ x ∈ b, x < 256

/-- Byte at index `i` (0 when out of range; only used in-range). -/
def getByte (b : Buffer) (i : Nat) : Nat := b.getD i 0

/-- ECMAScript ToIndex on the position numbers of the model. -/
def toIndex? : JNum → Option Nat
  | .nan => some 0
  | .int i => if i < 0 then none else some i.toNat

/-- Read the raw byte slice `[p, p+n)`. -/
def dvGetBytes (b : Buffer) (pos : JNum) (n : Nat) : Except Err (List Nat) × Buffer :=
  match toIndex? pos with
  | none => (.error .rangeError, b)
  | some p =>
    if p + n ≤ b.length then (.ok ((b.drop p).take n), b)
    else (.error .rangeError, b)

/-- Overwrite bytes starting at `p` (each truncated to a byte, as the
ECMAScript SetValueInBuffer stores raw bytes). -/
def setBytes : Buffer → Nat → List Nat → Buffer
  | b, _, [] => b
  | b, p, x :: xs => setBytes (b.set p (x % 256)) (p + 1) xs

/-- Write the raw byte slice `[p, p+|bs|)` after a bounds check. -/
def dvSetBytes (b : Buffer) (pos : JNum) (bs : List Nat) : Except Err Unit × Buffer :=
  match toIndex? pos with
  | none => (.error .rangeError, b)
  | some p =>
    if p + bs.length ≤ b.length then (.ok (), setBytes b p bs)
    else (.error .rangeError, b)

/-- Value of a little-endian byte list. -/
def leNum : List Nat → Nat
  | [] => 0
  | x :: xs => x + 256 * leNum xs

/-- The `n` little-endian bytes of `v`. -/
def natLEBytes : Nat → Nat → List Nat
  | _, 0 => []
  | v, n + 1 => v % 256 :: natLEBytes (v / 256) n

/-- Memory order of a little-endian byte list under the endianness flag. -/
def orient (little : Bool) (bs : List Nat) : List Nat :=
  if little then bs else bs.reverse

/-- getUint8/getUint16/getUint32/getBigUint64 (`n` bytes). -/
def dvGetUint (b : Buffer) (pos : JNum) (n : Nat) (e : Bool) : Except Err Nat × Buffer :=
  match dvGetBytes b pos n with
  | (.ok bs, b₁) => (.ok (leNum (orient e bs)), b₁)
  | (.error er, b₁) => (.error er, b₁)

/-- setUint8/setUint16/setUint32/setBigUint64: the value is reduced mod
2^(8n) (ToUint8/ToUint16/ToUint32/BigInt.asUintN) and stored. -/
def dvSetUint (b : Buffer) (pos : JNum) (n : Nat) (e : Bool) (v : Int) : Except Err Unit × Buffer :=
  dvSetBytes b pos (orient e (natLEBytes (v % ((2 ^ (8 * n) : Nat) : Int)).toNat n))

/-- Two's-complement reading of an `n`-byte unsigned value
(getInt8/getInt16/getInt32/getBigInt64 after the unsigned read). -/
def asSigned (n : Nat) (u : Nat) : Int :=
  if u < 2 ^ (8 * n - 1) then (u : Int) else (u : Int) - ((2 ^ (8 * n) : Nat) : Int)

/-! ## The primitive type table (PrimitiveTypes.js) -/

inductive PrimTy where
  | u8 | s8 | u16 | s16 | u32 | s32 | u64 | s64
  | float | double | char | bool | string
  deriving DecidableEq, Repr

/-- `sizeof` per primitive; the string type has `sizeof: undefined`, which
behaves as NaN in the arithmetic and comparisons it reaches. -/
def primSizeof : PrimTy → JNum
  | .u8 => .int 1 | .s8 => .int 1
  | .u16 => .int 2 | .s16 => .int 2
  | .u32 => .int 4 | .s32 => .int 4
  | .u64 => .int 8 | .s64 => .int 8
  | .float => .int 4 | .double => .int 8
  | .char => .int 1 | .bool => .int 4
  | .string => .nan

/-- An ordered bitfield sub-field layout: names with bit widths (the parsed
JSON options object; entry order is declaration order). -/
abbrev Layout := List (String × Nat)

/-- JavaScript values produced and consumed by the codec.  Strings are
their UTF-16 code-unit sequences.  Float data is modelled by its raw bit
pattern.  `bfval` is a Bitfield8/16/32/64 instance: container bit length,
the `value` property (a Number for widths up to 32, a BigInt for 64), and
the field layout. -/
inductive JSVal where
  | num (n : Int)
  | big (n : Int)
  | bool (b : Bool)
  | str (codeUnits : List Nat)
  | f32 (bits : Nat)
  | f64 (bits : Nat)
  | arr (vs : List JSVal)
  | obj (fields : List (String × JSVal))
  | bfval (W : Nat) (raw : JSVal) (layout : Layout)
  | undefined

/-! ## The bitfield model (Bitfield.js) -/

/-- `Object.values(fields).reduce((sum, l) => sum + l)`. -/
def sumWidths (l : Layout) : Nat := l.foldr (fun p acc => p.2 + acc) 0

/-- The Bitfield constructor: reduce with no initial value throws a
TypeError on an empty fields object; then the sum of the widths is checked
against the container bit length (`widthOverflow` past it).  The
`typeof length` number check always passes here since widths are numbers.
On success the instance holds the raw value and the layout. -/
def bitfieldMk (W : Nat) (raw : JSVal) (fields : Layout) : Except Err JSVal :=
  match fields with
  | [] => .error .typeError
  | _ =>
    if sumWidths fields > W then .error .widthOverflow
    else .ok (.bfval W raw fields)

/-- Accumulated bit offset and width of a named sub-field (offsets are the
running sums of the preceding widths, in declaration order). -/
def bfFind : Layout → String → Nat → Option (Nat × Nat)
  | [], _, _ => none
  | (n, w) :: rest, f, acc =>
    if n = f then some (acc, w) else bfFind rest f (acc + w)

/-- Offset and width of sub-field `f`. -/
def bfOffsets (l : Layout) (f : String) : Option (Nat × Nat) := bfFind l f 0

/-- The generated getter, on an instance.  A BigInt-valued instance
(decoded Bitfield64) throws a TypeError when its BigInt `value` meets the
Number shift amount. -/
def bfGetF (v : JSVal) (f : String) : Except Err Int :=
  match v with
  | .bfval W raw layout =>
    match bfOffsets layout f with
    | none => .error .typeError
    | some (off, len) =>
      match raw with
      | .num n => .ok (jsGet W n off len)
      | _ => .error .typeError
  | _ => .error .typeError

/-- The generated setter, on an instance (same BigInt caveat). -/
def bfSetF (v : JSVal) (f : String) (x : Int) : Except Err JSVal :=
  match v with
  | .bfval W raw layout =>
    match bfOffsets layout f with
    | none => .error .typeError
    | some (off, len) =>
      match raw with
      | .num n => .ok (.bfval W (.num (jsSet W n off len x)) layout)
      | _ => .error .typeError
  | _ => .error .typeError

/-- The getter formula in the words of the specification: the raw value
shifted right by `W - bitOffset - width` and masked to `width` bits, as an
exact unsigned integer (to be compared with the implemented `jsGet`). -/
def specGet (W raw off len : Nat) : Nat :=
  (raw >>> (W - off - len)) &&& (2 ^ len - 1)

/-- Binary digit code units of `n` (most significant first), empty for 0;
first argument is structural fuel (`n` itself suffices). -/
def binDigitsAux : Nat → Nat → List Nat
  | 0, _ => []
  | fuel + 1, n => if n = 0 then [] else binDigitsAux fuel (n / 2) ++ [48 + n % 2]

/-- JS `n.toString(2)` for a nonnegative integer, as code units. -/
def jsToString2 (n : Nat) : List Nat :=
  if n = 0 then [48] else binDigitsAux n n

/-- JS `padStart(w, "0")` on code units. -/
def padStartZero (w : Nat) (l : List Nat) : List Nat :=
  List.replicate (w - l.length) 48 ++ l

/-- Body of Bitfield.prototype.toJSON: walk the layout in order with the
running bit offset, skip names starting with the reserved marker, render
1-bit fields as Boolean and wider fields as a 0b-prefixed zero-padded
binary string of the declared width. -/
def bfToJSONGo (W : Nat) (rawN : Int) : Layout → Nat → List (String × JSVal)
  | [], _ => []
  | (n, len) :: rest, acc =>
    let tail := bfToJSONGo W rawN rest (acc + len)
    match n.data with
    | '#' :: _ => tail
    | _ =>
      let g := jsGet W rawN acc len
      if len = 1 then (n, .bool (decide (g ≠ 0))) :: tail
      else (n, .str ([48, 98] ++ padStartZero len (jsToString2 g.toNat))) :: tail

/-- The external JSON projection of a decoded struct value (what
JSON.stringify sees: plain values pass through, objects and arrays recurse,
bitfield instances are replaced by their toJSON).  Fuel-indexed; any fuel
at least the value depth is enough. -/
def jsonProjF : Nat → JSVal → JSVal
  | 0, v => v
  | fuel + 1, v =>
    match v with
    | .obj fs => .obj (fs.map fun p => (p.1, jsonProjF fuel p.2))
    | .arr vs => .arr (vs.map (jsonProjF fuel))
    | .bfval W raw layout =>
      match raw with
      | .num n => .obj (bfToJSONGo W n layout 0)
      | _ => v
    | x => x

/-! ## Resolved type descriptors

`Struct.readValue` / `Struct.writeValue` dispatch on a type name through the
registry; since the registry is insert-only and a compiled struct only
references types registered before it, a registered struct denotes the
resolved tree below (the registry-level, name-based form and the resolution
map appear further down with the schema compiler).  A struct descriptor
carries its stored compiled `sizeof` (which the codec trusts, exactly as
the source trusts the stored `#sizeof`). -/

inductive Ty where
  | prim (p : PrimTy)
  | bf (W : Nat)
  | strct (sz : JNum) (props : List (String × Ty × Nat × Option Layout))

/-- A field descriptor: name, resolved type, arrayLength, bitfield options. -/
abbrev Field := String × Ty × Nat × Option Layout

/-- `t.sizeof` of a registry entry: primitive table value, the static
`sizeof` of a Bitfield class, or the stored compiled size of a struct. -/
def tySizeof : Ty → JNum
  | .prim p => primSizeof p
  | .bf W => .int ((W / 8 : Nat) : Int)
  | .strct sz _ => sz

/-! ## Primitive reads and writes (PrimitiveTypes.js) -/

/-- The C-string scan of the string reader: bytes until a NUL, each fetched
with a bounds-checked getUint8.  Fuel `b.length + 1 - i` is always enough. -/
def readCStr : Buffer → Nat → Nat → Except Err (List Nat) × Buffer
  | b, _, 0 => (.error .rangeError, b)
  | b, i, fuel + 1 =>
    if i < b.length then
      let byte := getByte b i
      if byte = 0 then (.ok [], b)
      else
        match readCStr b (i + 1) fuel with
        | (.ok rest, b₁) => (.ok (byte :: rest), b₁)
        | (.error er, b₁) => (.error er, b₁)
    else (.error .rangeError, b)

/-- The read function of each primitive type. -/
def readPrim (b : Buffer) (pos : JNum) (p : PrimTy) (e : Bool) : Except Err JSVal × Buffer :=
  match p with
  | .u8 =>
    match dvGetUint b pos 1 e with
    | (.ok u, b₁) => (.ok (.num u), b₁)
    | (.error er, b₁) => (.error er, b₁)
  | .s8 =>
    match dvGetUint b pos 1 e with
    | (.ok u, b₁) => (.ok (.num (asSigned 1 u)), b₁)
    | (.error er, b₁) => (.error er, b₁)
  | .u16 =>
    match dvGetUint b pos 2 e with
    | (.ok u, b₁) => (.ok (.num u), b₁)
    | (.error er, b₁) => (.error er, b₁)
  | .s16 =>
    match dvGetUint b pos 2 e with
    | (.ok u, b₁) => (.ok (.num (asSigned 2 u)), b₁)
    | (.error er, b₁) => (.error er, b₁)
  | .u32 =>
    match dvGetUint b pos 4 e with
    | (.ok u, b₁) => (.ok (.num u), b₁)
    | (.error er, b₁) => (.error er, b₁)
  | .s32 =>
    match dvGetUint b pos 4 e with
    | (.ok u, b₁) => (.ok (.num (asSigned 4 u)), b₁)
    | (.error er, b₁) => (.error er, b₁)
  | .u64 =>
    match dvGetUint b pos 8 e with
    | (.ok u, b₁) => (.ok (.big u), b₁)
    | (.error er, b₁) => (.error er, b₁)
  | .s64 =>
    match dvGetUint b pos 8 e with
    | (.ok u, b₁) => (.ok (.big (asSigned 8 u)), b₁)
    | (.error er, b₁) => (.error er, b₁)
  | .float =>
    match dvGetUint b pos 4 e with
    | (.ok u, b₁) => (.ok (.f32 u), b₁)
    | (.error er, b₁) => (.error er, b₁)
  | .double =>
    match dvGetUint b pos 8 e with
    | (.ok u, b₁) => (.ok (.f64 u), b₁)
    | (.error er, b₁) => (.error er, b₁)
  | .char =>
    match dvGetUint b pos 1 e with
    | (.ok u, b₁) => (.ok (.str [u]), b₁)
    | (.error er, b₁) => (.error er, b₁)
  | .bool =>
    match dvGetUint b pos 4 e with
    | (.ok u, b₁) => (.ok (.bool (decide (u ≠ 0))), b₁)
    | (.error er, b₁) => (.error er, b₁)
  | .string =>
    match toIndex? pos with
    | none => (.error .rangeError, b)
    | some i =>
      match readCStr b i (b.length + 1 - i) with
      | (.ok cs, b₁) => (.ok (.str cs), b₁)
      | (.error er, b₁) => (.error er, b₁)

/-- JS truthiness of the modelled values (Boolean(value)). -/
def jsTruthy : JSVal → Bool
  | .num n => n ≠ 0
  | .big n => n ≠ 0
  | .bool b => b
  | .str cs => cs ≠ []
  | .f32 bits => ¬(bits = 0 ∨ bits = 2 ^ 31 ∨ ((bits >>> 23) &&& 255 = 255 ∧ bits &&& (2 ^ 23 - 1) ≠ 0))
  | .f64 bits => ¬(bits = 0 ∨ bits = 2 ^ 63 ∨ ((bits >>> 52) &&& 2047 = 2047 ∧ bits &&& (2 ^ 52 - 1) ≠ 0))
  | .arr _ => true
  | .obj _ => true
  | .bfval _ _ _ => true
  | .undefined => false

/-- The write function of each primitive type.  Value shapes other than
the ones produced by the matching reader go through ECMAScript ToNumber /
ToBigInt coercions in the source; the model rejects them with a TypeError
(no claim exercises them).  Note bool: the source writes a SINGLE byte
`setUint8(position, Boolean(value))` although the type reads four. -/
def writePrim (b : Buffer) (pos : JNum) (p : PrimTy) (v : JSVal) (e : Bool) :
    Except Err Unit × Buffer :=
  match p with
  | .u8 | .s8 =>
    match v with
    | .num n => dvSetUint b pos 1 e n
    | _ => (.error .typeError, b)
  | .u16 | .s16 =>
    match v with
    | .num n => dvSetUint b pos 2 e n
    | _ => (.error .typeError, b)
  | .u32 | .s32 =>
    match v with
    | .num n => dvSetUint b pos 4 e n
    | _ => (.error .typeError, b)
  | .u64 | .s64 =>
    match v with
    | .big n => dvSetUint b pos 8 e n
    | _ => (.error .typeError, b)
  | .float =>
    match v with
    | .f32 bits => dvSetUint b pos 4 e bits
    | _ => (.error .typeError, b)
  | .double =>
    match v with
    | .f64 bits => dvSetUint b pos 8 e bits
    | _ => (.error .typeError, b)
  | .char =>
    match v with
    | .str [] => dvSetUint b pos 1 e 0
    | .str (c :: _) => dvSetUint b pos 1 e c
    | _ => (.error .typeError, b)
  | .bool => dvSetUint b pos 1 e (if jsTruthy v then 1 else 0)
  | .string => (.error .typeError, b)

/-! ## The struct codec (Struct.js)

A fuel-indexed interpreter; every recursive call decrements the fuel, and
the validity/size function `wfC` below mirrors the exact call tree, so a
descriptor accepted by `wfC` at some fuel runs without exhausting it. -/

/-- The raw container read of BitfieldW.read:
`Struct.readValue(data, position, uW, isLittleEndian).value`
(a Number for widths up to 32, a BigInt for 64). -/
def bfReadRaw (b : Buffer) (pos : JNum) (W : Nat) (e : Bool) : Except Err JSVal × Buffer :=
  if W = 64 then
    match dvGetUint b pos 8 e with
    | (.ok u, b₁) => (.ok (.big u), b₁)
    | (.error er, b₁) => (.error er, b₁)
  else
    match dvGetUint b pos (W / 8) e with
    | (.ok u, b₁) => (.ok (.num u), b₁)
    | (.error er, b₁) => (.error er, b₁)

/-- The raw container write of BitfieldW.write:
`Struct.writeValue(data, position, value.value, uW, isLittleEndian)`
(setBigUint64 demands a BigInt, the narrower setters a Number; the other
shape throws a TypeError). -/
def bfWriteRaw (b : Buffer) (pos : JNum) (W : Nat) (raw : JSVal) (e : Bool) :
    Except Err Unit × Buffer :=
  if W = 64 then
    match raw with
    | .big n => dvSetUint b pos 8 e n
    | _ => (.error .typeError, b)
  else
    match raw with
    | .num n => dvSetUint b pos (W / 8) e n
    | _ => (.error .typeError, b)

/-- Read-side commands: `val` is `Struct.readValue` on a resolved type,
`arrR` the array element loop of `Struct.readStruct`, `flds` its property
loop. -/
inductive RCmd where
  | val (t : Ty) (opts : Option Layout)
  | arrR (t : Ty) (opts : Option Layout) (n : Nat)
  | flds (ps : List Field)

/-- `value[name]` on a decoded object. -/
def objGet (fs : List (String × JSVal)) (n : String) : JSVal :=
  match fs.find? (fun p => p.1 = n) with
  | some p => p.2
  | none => .undefined

/-- JS property access `value[name]` (absent name gives undefined). -/
def vProp (v : JSVal) (n : String) : JSVal :=
  match v with
  | .obj fs => objGet fs n
  | _ => .undefined

/-- JS index access `value[i]`. -/
def vIdx (v : JSVal) (i : Nat) : JSVal :=
  match v with
  | .arr vs => vs.getD i .undefined
  | _ => .undefined

/-- `read.count` of `Struct.readValue` for a primitive: the decoded string
length plus one for the string type, `t.sizeof` otherwise. -/
def primCount (p : PrimTy) (v : JSVal) : JNum :=
  match p, v with
  | .string, .str cs => .int (cs.length + 1)
  | _, _ => primSizeof p

/-- The read interpreter.  A successful result is the decoded value
together with the `count` by which the caller advances its cursor
(`read.count` in the source: the string length plus one for strings, the
stored `sizeof` of the type otherwise). -/
def run : Nat → RCmd → Bool → JNum → Buffer → Except Err (JSVal × JNum) × Buffer
  | 0, _, _, _, b => (.error .outOfFuel, b)
  | fuel + 1, .val t opts, e, pos, b =>
    match t with
    | .prim p =>
      match readPrim b pos p e with
      | (.ok v, b₁) => (.ok (v, primCount p v), b₁)
      | (.error er, b₁) => (.error er, b₁)
    | .bf W =>
      match bfReadRaw b pos W e with
      | (.ok raw, b₁) =>
        match bitfieldMk W raw ((opts).getD []) with
        | .ok inst => (.ok (inst, .int ((W / 8 : Nat) : Int)), b₁)
        | .error er => (.error er, b₁)
      | (.error er, b₁) => (.error er, b₁)
    | .strct sz ps =>
      match run fuel (.flds ps) e pos b with
      | (.ok (v, _), b₁) => (.ok (v, sz), b₁)
      | (.error er, b₁) => (.error er, b₁)
  | _ + 1, .arrR _ _ 0, _, _, b => (.ok (.arr [], .int 0), b)
  | fuel + 1, .arrR t opts (n + 1), e, pos, b =>
    match run fuel (.val t opts) e pos b with
    | (.ok (v, c), b₁) =>
      match run fuel (.arrR t opts n) e (jadd pos c) b₁ with
      | (.ok (.arr vs, d), b₂) => (.ok (.arr (v :: vs), jadd c d), b₂)
      | (.ok (_, _), b₂) => (.error .typeError, b₂)
      | (.error er, b₂) => (.error er, b₂)
    | (.error er, b₁) => (.error er, b₁)
  | _ + 1, .flds [], _, _, b => (.ok (.obj [], .int 0), b)
  | fuel + 1, .flds ((name, t, len, opts) :: rest), e, pos, b =>
    match (if len = 1 then run fuel (.val t opts) e pos b
           else run fuel (.arrR t opts len) e pos b) with
    | (.ok (v, c), b₁) =>
      match run fuel (.flds rest) e (jadd pos c) b₁ with
      | (.ok (.obj fs, d), b₂) => (.ok (.obj ((name, v) :: fs), jadd c d), b₂)
      | (.ok (_, _), b₂) => (.error .typeError, b₂)
      | (.error er, b₂) => (.error er, b₂)
    | (.error er, b₁) => (.error er, b₁)

/-- Write-side commands, mirroring the read side: `valW` is
`Struct.writeValue`, `arrW` the array element loop of `writeStruct`
(remaining count, current index, the array value), `fldsW` its property
loop. -/
inductive WCmd where
  | valW (t : Ty) (opts : Option Layout) (v : JSVal)
  | arrW (t : Ty) (opts : Option Layout) (n : Nat) (i : Nat) (v : JSVal)
  | fldsW (ps : List Field) (v : JSVal)

/-- `typeof t.write === 'function'`: every registered descriptor has a
write function except the string primitive. -/
def hasWrite : Ty → Bool
  | .prim .string => false
  | _ => true

/-- The write interpreter.  A successful result is the count returned to
the caller (always the stored `sizeof` for `writeValue`).  `writeValue`
checks, in source order: the type has a write function (the string type
does not), the bounds, NaN.  A nested struct write re-enters
`Struct.writeStruct`, which repeats the bounds and NaN pre-flight. -/
def runW : Nat → WCmd → Bool → JNum → Buffer → Except Err JNum × Buffer
  | 0, _, _, _, b => (.error .outOfFuel, b)
  | fuel + 1, .valW t _opts v, e, pos, b =>
    if !hasWrite t then (.error .typeError, b)
    else
      if jlt pos (.int 0) || jgt (jadd pos (tySizeof t)) (.int b.length) then
        (.error .rangeError, b)
      else if jIsNaN pos then (.error .rangeError, b)
      else
        match t with
        | .prim p =>
          match writePrim b pos p v e with
          | (.ok _, b₁) => (.ok (primSizeof p), b₁)
          | (.error er, b₁) => (.error er, b₁)
        | .bf W =>
          match v with
          | .bfval _ raw _ =>
            match bfWriteRaw b pos W raw e with
            | (.ok _, b₁) => (.ok (.int ((W / 8 : Nat) : Int)), b₁)
            | (.error er, b₁) => (.error er, b₁)
          | _ => (.error .typeError, b)
        | .strct sz ps =>
          if jlt pos (.int 0) || jgt (jadd pos sz) (.int b.length) then
            (.error .rangeError, b)
          else if jIsNaN pos then (.error .rangeError, b)
          else
            match runW fuel (.fldsW ps v) e pos b with
            | (.ok _, b₁) => (.ok sz, b₁)
            | (.error er, b₁) => (.error er, b₁)
  | _ + 1, .arrW _ _ 0 _ _, _, _, b => (.ok (.int 0), b)
  | fuel + 1, .arrW t opts (r + 1) i v, e, pos, b =>
    match runW fuel (.valW t opts (vIdx v i)) e pos b with
    | (.ok c, b₁) =>
      match runW fuel (.arrW t opts r (i + 1) v) e (jadd pos c) b₁ with
      | (.ok d, b₂) => (.ok (jadd c d), b₂)
      | (.error er, b₂) => (.error er, b₂)
    | (.error er, b₁) => (.error er, b₁)
  | _ + 1, .fldsW [] _, _, _, b => (.ok (.int 0), b)
  | fuel + 1, .fldsW ((name, t, len, opts) :: rest) v, e, pos, b =>
    match (if len = 1 then runW fuel (.valW t opts (vProp v name)) e pos b
           else runW fuel (.arrW t opts len 0 (vProp v name)) e pos b) with
    | (.ok c, b₁) =>
      match runW fuel (.fldsW rest v) e (jadd pos c) b₁ with
      | (.ok d, b₂) => (.ok (jadd c d), b₂)
      | (.error er, b₂) => (.error er, b₂)
    | (.error er, b₁) => (.error er, b₁)

/-- `Struct.readStruct` on a resolved registry entry (after its DataView
and registry checks).  On a non-struct entry the property loop iterates
over an undefined `props`, performing zero iterations. -/
def readStructT (fuel : Nat) (t : Ty) (e : Bool) (pos : JNum) (b : Buffer) :
    Except Err JSVal × Buffer :=
  match t with
  | .strct _ ps =>
    match run fuel (.flds ps) e pos b with
    | (.ok (v, _), b₁) => (.ok v, b₁)
    | (.error er, b₁) => (.error er, b₁)
  | _ => (.ok (.obj []), b)

/-- `Struct.writeStruct` on a resolved registry entry: the pre-flight
bounds check (`position < 0 || position + struct.sizeof > data.byteLength`
throws a RangeError), the NaN check, then the property loop. -/
def writeStructT (fuel : Nat) (t : Ty) (v : JSVal) (e : Bool) (pos : JNum) (b : Buffer) :
    Except Err JNum × Buffer :=
  if jlt pos (.int 0) || jgt (jadd pos (tySizeof t)) (.int b.length) then
    (.error .rangeError, b)
  else if jIsNaN pos then (.error .rangeError, b)
  else
    match t with
    | .strct _ ps => runW fuel (.fldsW ps v) e pos b
    | _ => (.ok (.int 0), b)

/-- Validity and total byte size of a command, mirroring the call tree of
`run` exactly (each recursive occurrence at one less fuel).  A command is
accepted only when: its primitives are neither `bool` (whose write path
does not invert its read path) nor `string` (variable size); bitfield
containers are one of the four registered widths with a present, nonempty
layout whose widths sum within the container; a struct's stored size
agrees with the computed size of its fields; and field names within each
struct are distinct (the spec-level field descriptor invariant). -/
def wfC : Nat → RCmd → Option Nat
  | 0, _ => none
  | _ + 1, .val (.prim p) _ =>
    match p with
    | .bool => none
    | .string => none
    | _ =>
      match primSizeof p with
      | .int n => some n.toNat
      | .nan => none
  | _ + 1, .val (.bf W) opts =>
    if W = 8 || W = 16 || W = 32 || W = 64 then
      match opts with
      | some l => if l.isEmpty then none else if sumWidths l ≤ W then some (W / 8) else none
      | none => none
    else none
  | fuel + 1, .val (.strct sz ps) _ =>
    match wfC fuel (.flds ps) with
    | some n => if sz = .int n then some n else none
    | none => none
  | _ + 1, .arrR _ _ 0 => some 0
  | fuel + 1, .arrR t opts (n + 1) =>
    match wfC fuel (.val t opts), wfC fuel (.arrR t opts n) with
    | some s, some d => some (s + d)
    | _, _ => none
  | _ + 1, .flds [] => some 0
  | fuel + 1, .flds ((name, t, len, opts) :: rest) =>
    match (if len = 1 then wfC fuel (.val t opts) else wfC fuel (.arrR t opts len)),
          wfC fuel (.flds rest) with
    | some s, some d =>
      if (rest.map (fun f => f.1)).contains name then none else some (s + d)
    | _, _ => none

/-! ## The type registry and the schema compiler (Struct.js constructor)

The registry is the insert-only name-to-descriptor map
`Struct.#loadedStructs`, seeded with the primitive table and the four
Bitfield container classes.  Struct descriptors at this level reference
their field types by name (`RProp`); `resolveR` maps them to the resolved
`Ty` used by the codec. -/

structure RProp where
  type : String
  name : String
  arrayLength : Nat
  options : Option Layout
  deriving DecidableEq, Repr

inductive Entry where
  | prim (p : PrimTy)
  /-- One of the four Bitfield container classes (registered by their
  static initialiser through `registerFromClass`). -/
  | bfcls (W : Nat)
  /-- Any other class registered through `registerFromClass` (modelled by
  its static `sizeof`; the typeof guards of `registerFromClass` hold for
  every such value by construction). -/
  | cls (sz : JNum)
  | strukt (sz : JNum) (props : List RProp)
  deriving DecidableEq, Repr

abbrev Registry := List (String × Entry)

/-- `Struct.loadedStructs[k]`. -/
def rlookup (r : Registry) (k : String) : Option Entry :=
  match r.find? (fun p => p.1 = k) with
  | some p => some p.2
  | none => none

/-- `Struct.#loadedStructs[k] = v` (assignment: replaces an existing
binding, otherwise appends). -/
def rset : Registry → String → Entry → Registry
  | [], k, v => [(k, v)]
  | (k₁, v₁) :: rest, k, v =>
    if k₁ = k then (k, v) :: rest else (k₁, v₁) :: rset rest k v

/-- `entry.sizeof`. -/
def entrySizeof : Entry → JNum
  | .prim p => primSizeof p
  | .bfcls W => .int ((W / 8 : Nat) : Int)
  | .cls sz => sz
  | .strukt sz _ => sz

/-- The names and order of the primitive table. -/
def primNames : List (String × PrimTy) :=
  [("u8", .u8), ("s8", .s8), ("u16", .u16), ("s16", .s16),
   ("u32", .u32), ("s32", .s32), ("u64", .u64), ("s64", .s64),
   ("float", .float), ("double", .double), ("char", .char),
   ("bool", .bool), ("string", .string)]

/-- The registry as it stands after module loading: the primitive table
followed by the four Bitfield classes. -/
def initReg : Registry :=
  primNames.map (fun p => (p.1, Entry.prim p.2)) ++
  [("Bitfield8", .bfcls 8), ("Bitfield16", .bfcls 16),
   ("Bitfield32", .bfcls 32), ("Bitfield64", .bfcls 64)]

/-- `Struct.registerFromClass`: after the typeof guards (satisfied by
every modelled class value) the class is stored under its static name
unconditionally — there is no name-conflict check on this path. -/
def registerFromClass (r : Registry) (name : String) (e : Entry) :
    Except Err Unit × Registry :=
  (.ok (), rset r name e)

/-! ### Line parsing

`varPattern  = /^(.+) +(#?[a-zA-Z_][a-zA-Z0-9_]*?)$/`
`arrayPattern = /([a-zA-Z_][a-zA-Z0-9]*)\[([0-9]+)\]/`
`bitfieldPattern = /^(Bitfield(?:8|16|32|64))\{(.+)\}$/`
modelled as direct character-list parsers with the same match semantics on
the line shapes the grammar admits. -/

def isSpaceC (c : Char) : Bool := c = ' ' || c = '\t' || c = '\r'

def trimC (l : List Char) : List Char :=
  ((l.dropWhile isSpaceC).reverse.dropWhile isSpaceC).reverse

def isAlphaC (c : Char) : Bool :=
  ('a' ≤ c && c ≤ 'z') || ('A' ≤ c && c ≤ 'Z')

def isDigitC (c : Char) : Bool := '0' ≤ c && c ≤ '9'

def isIdentStartC (c : Char) : Bool := isAlphaC c || c = '_'

def isIdentC (c : Char) : Bool := isIdentStartC c || isDigitC c

/-- `parseInt` on a nonempty digit run. -/
def digitsToNat (l : List Char) : Nat :=
  l.foldl (fun acc c => acc * 10 + (c.toNat - 48)) 0

/-- `varPattern`: the greedy `.+` pushes the split to the last space run;
the suffix must be an identifier, optionally `#`-prefixed, reaching the
end of the line; at least one separating space; nonempty prefix. -/
def parseVarLine (l : List Char) : Option (List Char × List Char) :=
  let r := l.reverse
  let identRev := r.takeWhile isIdentC
  let restA := r.drop identRev.length
  let withHash :=
    match restA with
    | '#' :: tl => (identRev ++ ['#'], tl)
    | _ => (identRev, restA)
  let ident := withHash.1.reverse
  let core := match ident with
    | '#' :: tl => tl
    | x => x
  match core with
  | [] => none
  | c :: _ =>
    if !isIdentStartC c then none
    else
      let spaces := withHash.2.takeWhile (fun d => d = ' ')
      let pre := withHash.2.drop spaces.length
      if spaces.isEmpty || pre.isEmpty then none
      else some (pre.reverse, ident)

def startsWithC : List Char → List Char → Bool
  | [], _ => true
  | _ :: _, [] => false
  | p :: ps, c :: cs => p = c && startsWithC ps cs

/-- One width alternative of `bitfieldPattern`. -/
def tryBF (w : Nat) (pre : List Char) (t : List Char) : Option (Nat × List Char) :=
  if startsWithC pre t then
    match (t.drop pre.length).reverse with
    | '}' :: innerRev => if innerRev.isEmpty then none else some (w, innerRev.reverse)
    | _ => none
  else none

/-- `bitfieldPattern`: container width and the raw inner option text. -/
def parseBitfieldTy (t : List Char) : Option (Nat × List Char) :=
  match tryBF 8 "Bitfield8\x7b".data t with
  | some x => some x
  | none =>
    match tryBF 16 "Bitfield16\x7b".data t with
    | some x => some x
    | none =>
      match tryBF 32 "Bitfield32\x7b".data t with
      | some x => some x
      | none => tryBF 64 "Bitfield64\x7b".data t

/-- A full `arrayPattern` match starting at the head of `l`. -/
def arrMatchHere (l : List Char) : Option (List Char × Nat) :=
  match l with
  | [] => none
  | c :: rest =>
    if isIdentStartC c then
      let tailName := rest.takeWhile (fun d => isAlphaC d || isDigitC d)
      match rest.drop tailName.length with
      | '[' :: r₂ =>
        let digits := r₂.takeWhile isDigitC
        if digits.isEmpty then none
        else
          match r₂.drop digits.length with
          | ']' :: _ => some (c :: tailName, digitsToNat digits)
          | _ => none
      | _ => none
    else none

/-- `arrayPattern` is unanchored: first match wins (trailing text after
the closing bracket is permitted and discarded, as in the source). -/
def arrSearch : List Char → Option (List Char × Nat)
  | [] => none
  | c :: rest =>
    match arrMatchHere (c :: rest) with
    | some x => some x
    | none => arrSearch rest

/-- Split at commas. -/
def splitCommaGo : List Char → List Char → List (List Char)
  | [], acc => [acc.reverse]
  | ',' :: rest, acc => acc.reverse :: splitCommaGo rest []
  | c :: rest, acc => splitCommaGo rest (c :: acc)

/-- `split(/, */)`: the separator also consumes the spaces following each
comma, so every piece after the first loses its leading spaces. -/
def splitComma (l : List Char) : List (List Char) :=
  match splitCommaGo l [] with
  | [] => []
  | p :: ps => p :: ps.map (fun q => q.dropWhile (fun d => d = ' '))

/-- One bitfield option `name: width`: the source quotes the leading
identifier (`^(#?[a-zA-Z][a-zA-Z0-9_]*)`) and hands the piece to
JSON.parse; a piece of any other shape makes JSON.parse throw.  Widths in
the claims are natural number literals; other JSON numbers are outside
the model. -/
def parseOptField (l : List Char) : Option (String × Nat) :=
  let hash := match l with
    | '#' :: tl => (['#'], tl)
    | _ => (([] : List Char), l)
  match hash.2 with
  | [] => none
  | c :: tl =>
    if isAlphaC c then
      let idTail := tl.takeWhile isIdentC
      let rest := (tl.drop idTail.length).dropWhile isSpaceC
      match rest with
      | ':' :: r₂ =>
        let r₃ := r₂.dropWhile isSpaceC
        let digits := r₃.takeWhile isDigitC
        if digits.isEmpty then none
        else if ((r₃.drop digits.length).dropWhile isSpaceC).isEmpty then
          some (String.mk (hash.1 ++ c :: idTail), digitsToNat digits)
        else none
      | _ => none
    else none

/-- All options of a bitfield descriptor (None models the JSON.parse
throw, reported as a malformed bitfield descriptor). -/
def parseBFOpts (l : List Char) : Option Layout :=
  let pieces := splitComma l
  pieces.foldr
    (fun piece acc =>
      match parseOptField piece, acc with
      | some f, some fs => some (f :: fs)
      | _, _ => none)
    (some [])

/-- The Bitfield class name referenced by a container width. -/
def bfNameOf (w : Nat) : String :=
  if w = 8 then "Bitfield8" else if w = 16 then "Bitfield16"
  else if w = 32 then "Bitfield32" else "Bitfield64"

/-! ### The constructor loop -/

structure CompState where
  props : List RProp
  sizeofJ : JNum
  deriving Repr

/-- One line of the Struct constructor loop: trim, skip empty, match
`varPattern`, reject the bare string type, then the bitfield branch, then
the array branch, then the registry lookup and size accounting. -/
def compLine (reg : Registry) (st : CompState) (line : List Char) : Except Err CompState :=
  let line := trimC line
  if line.isEmpty then .ok st
  else
    match parseVarLine line with
    | none => .error .invalidDecl
    | some (varType, varName) =>
      if varType = "string".data then .error .stringField
      else
        match parseBitfieldTy varType with
        | some (w, optsStr) =>
          match parseBFOpts optsStr with
          | none => .error .malformedBitfield
          | some layout =>
            match rlookup reg (bfNameOf w) with
            | some ent =>
              .ok { props := st.props ++ [⟨bfNameOf w, String.mk varName, 1, some layout⟩],
                    sizeofJ := jadd st.sizeofJ (entrySizeof ent) }
            | none => .error .typeError
        | none =>
          let arrSplit := match arrSearch varType with
            | some (nm, n) => (nm, n)
            | none => (varType, 1)
          match rlookup reg (String.mk arrSplit.1) with
          | none => .error .unknownType
          | some ent =>
            .ok { props := st.props ++
                    [⟨String.mk arrSplit.1, String.mk varName, arrSplit.2, none⟩],
                  sizeofJ := jadd st.sizeofJ (jmul (.int arrSplit.2) (entrySizeof ent)) }

def compLines (reg : Registry) : List (List Char) → CompState → Except Err CompState
  | [], st => .ok st
  | l :: ls, st =>
    match compLine reg st l with
    | .ok st₁ => compLines reg ls st₁
    | .error e => .error e

/-- `new Struct(structInfo, structName)`: the two name-conflict checks
(first against the static primitive table, then against the registry),
the line loop, and on success the registration.  Every failure leaves the
registry exactly as it was, since registration is the final step. -/
def structNew (reg : Registry) (info : List (List Char)) (name : String) :
    Except Err (List RProp × JNum) × Registry :=
  if (primNames.map Prod.fst).contains name then (.error .nameConflict, reg)
  else if (rlookup reg name).isSome then (.error .nameConflict, reg)
  else
    match compLines reg info ⟨[], .int 0⟩ with
    | .ok st => (.ok (st.props, st.sizeofJ), rset reg name (.strukt st.sizeofJ st.props))
    | .error e => (.error e, reg)

/-- Resolution of name-based struct props to the codec descriptor tree
(the runtime registry dispatch of `Struct.readValue`/`writeValue`,
performed once here since the registry is insert-only). -/
def resolveR : Nat → Registry → List RProp → Except Err (List Field)
  | 0, _, _ => .error .outOfFuel
  | _ + 1, _, [] => .ok []
  | fuel + 1, reg, p :: ps =>
    let ty : Except Err Ty :=
      match rlookup reg p.type with
      | none => .error .unknownType
      | some (.prim pr) => .ok (.prim pr)
      | some (.bfcls w) => .ok (.bf w)
      | some (.cls _) => .error .typeError
      | some (.strukt sz props) =>
        match resolveR fuel reg props with
        | .ok fs => .ok (.strct sz fs)
        | .error e => .error e
    match ty with
    | .error e => .error e
    | .ok t =>
      match resolveR fuel reg ps with
      | .ok rest => .ok ((p.name, t, p.arrayLength, p.options) :: rest)
      | .error e => .error e

/-- Resolve a registered struct by name. -/
def resolveStruct (fuel : Nat) (reg : Registry) (name : String) : Except Err Ty :=
  match rlookup reg name with
  | some (.strukt sz props) =>
    match resolveR fuel reg props with
    | .ok fs => .ok (.strct sz fs)
    | .error e => .error e
  | some (.prim p) => .ok (.prim p)
  | some (.bfcls w) => .ok (.bf w)
  | some (.cls _) => .error .typeError
  | none => .error .unknownType

/-- Running the write command at `p` on any well-formed buffer of the same
length as the source `b` succeeds with count `sz`, reproduces the bytes of
`b` on `[p, p+sz)` and leaves every other byte unchanged. -/
def WriteOK (fuel : Nat) (wc : WCmd) (e : Bool) (p : Nat) (b : Buffer) (sz : Nat) : Prop :=
  ∀ b', WFBuf b' → b'.length = b.length →
    ∃ b'', runW fuel wc e (.int (p : Int)) b' = (.ok (.int (sz : Int)), b'') ∧
      b''.length = b'.length ∧ WFBuf b'' ∧
      (∀ i, i < p ∨ p + sz ≤ i → getByte b'' i = getByte b' i) ∧
      (∀ i, p ≤ i → i < p + sz → getByte b'' i = getByte b i)

/-- A descriptor with a single bool field. -/
def boolFieldTy : Ty := .strct (.int 4) [("f", .prim .bool, 1, none)]

/-- The example1 descriptor shape, resolved. -/
def exampleFields : List Field :=
  [("field1", .prim .u16, 1, none), ("field2", .prim .u8, 1, none),
   ("field3", .bf 16, 1, some [("flagA", 1), ("flagB", 3), ("fieldC", 4)])]

/-- The schema line of the C3 scenario. -/
def c3Lines : List (List Char) := ["Bitfield8{a: 5, b: 6} x".data]

/-- The overflowing descriptor C3 compiles to. -/
def c3Prop : RProp := ⟨"Bitfield8", "x", 1, some [("a", 5), ("b", 6)]⟩

/-- Code units of a string literal. -/
def strCodes (s : String) : List Nat := s.data.map Char.toNat

/-- The example1 schema (test file example1.js). -/
def exLines : List (List Char) :=
  ["u16 field1".data, "u8 field2".data,
   "Bitfield16{flagA: 1, flagB: 3, fieldC: 4} field3".data]

/-- The example1 buffer: 16 bytes, field1 = 42 (u16 LE at 0), field2 = 7
(u8 at 2), field3 raw 0b1010011100000000 (u16 LE at 3). -/
def exBuf : Buffer := [42, 0, 7, 0, 0xA7] ++ List.replicate 11 0

/-- The decoded example1 value. -/
def exVal : JSVal :=
  .obj [("field1", .num 42), ("field2", .num 7),
        ("field3", .bfval 16 (.num 0xA700) [("flagA", 1), ("flagB", 3), ("fieldC", 4)])]
end StructJS

namespace StructJS

/-! ## Read-path frame lemmas: the read interpreter only invokes DataView
getters and returns its buffer untouched. -/

theorem dvGetBytes_snd (b : Buffer) (pos : JNum) (n : Nat) :
    (dvGetBytes b pos n).2 = b := by
  unfold dvGetBytes
  rcases h : toIndex? pos with _ | p
  · rfl
  · dsimp only
    split <;> rfl

theorem dvGetUint_snd (b : Buffer) (pos : JNum) (n : Nat) (e : Bool) :
    (dvGetUint b pos n e).2 = b := by
  unfold dvGetUint
  rcases h : dvGetBytes b pos n with ⟨r, b₁⟩
  have hb : b₁ = b := by
    have := dvGetBytes_snd b pos n
    rw [h] at this
    exact this
  cases r <;> simpa using hb

theorem readCStr_snd (fuel : Nat) : ∀ (b : Buffer) (i : Nat), (readCStr b i fuel).2 = b := by
  induction fuel with
  | zero => intro b i; rfl
  | succ n ih =>
    intro b i
    unfold readCStr
    by_cases hlt : i < b.length
    · simp only [hlt, if_true]
      rcases h : readCStr b (i + 1) n with ⟨r, b₁⟩
      have hb : b₁ = b := by
        have := ih b (i + 1)
        rw [h] at this
        exact this
      by_cases h0 : getByte b i = 0
      · simp [h0]
      · cases r <;> simp [h0, h, hb]
    · simp [hlt]

theorem readPrim_snd (b : Buffer) (pos : JNum) (p : PrimTy) (e : Bool) :
    (readPrim b pos p e).2 = b := by
  cases p <;> unfold readPrim <;>
    first
    | · rcases h : dvGetUint b pos 1 e with ⟨r, b₁⟩
        have hb : b₁ = b := by have := dvGetUint_snd b pos 1 e; rw [h] at this; exact this
        cases r <;> simpa using hb
    | · rcases h : dvGetUint b pos 2 e with ⟨r, b₁⟩
        have hb : b₁ = b := by have := dvGetUint_snd b pos 2 e; rw [h] at this; exact this
        cases r <;> simpa using hb
    | · rcases h : dvGetUint b pos 4 e with ⟨r, b₁⟩
        have hb : b₁ = b := by have := dvGetUint_snd b pos 4 e; rw [h] at this; exact this
        cases r <;> simpa using hb
    | · rcases h : dvGetUint b pos 8 e with ⟨r, b₁⟩
        have hb : b₁ = b := by have := dvGetUint_snd b pos 8 e; rw [h] at this; exact this
        cases r <;> simpa using hb
    | · rcases hx : toIndex? pos with _ | i
        · rfl
        · dsimp only
          rcases h : readCStr b i (b.length + 1 - i) with ⟨r, b₁⟩
          have hb : b₁ = b := by
            have := readCStr_snd (b.length + 1 - i) b i
            rw [h] at this
            exact this
          cases r <;> simpa using hb

end StructJS
namespace StructJS

theorem bfReadRaw_snd (b : Buffer) (pos : JNum) (W : Nat) (e : Bool) :
    (bfReadRaw b pos W e).2 = b := by
  unfold bfReadRaw
  by_cases hW : W = 64 <;> simp only [hW, if_true, if_false, ite_true, ite_false]
  · rcases h : dvGetUint b pos 8 e with ⟨r, b₁⟩
    have hb : b₁ = b := by have := dvGetUint_snd b pos 8 e; rw [h] at this; exact this
    cases r <;> simp [hb]
  · rcases h : dvGetUint b pos (W / 8) e with ⟨r, b₁⟩
    have hb : b₁ = b := by have := dvGetUint_snd b pos (W / 8) e; rw [h] at this; exact this
    cases r <;> simp [hb]

theorem run_snd (fuel : Nat) :
    ∀ (cmd : RCmd) (e : Bool) (pos : JNum) (b : Buffer), (run fuel cmd e pos b).2 = b := by
  induction fuel with
  | zero => intro cmd e pos b; rfl
  | succ n ih =>
    intro cmd e pos b
    match cmd with
    | .val (.prim p) opts =>
      rcases h : readPrim b pos p e with ⟨r, b₁⟩
      have hb : b₁ = b := by have := readPrim_snd b pos p e; rw [h] at this; exact this
      simp only [run, h]
      cases r with
      | ok v => simp [hb]
      | error er => simp [hb]
    | .val (.bf W) opts =>
      simp only [run]
      split
      next raw b₁ h =>
        have hb : b₁ = b := by have := bfReadRaw_snd b pos W e; rw [h] at this; exact this
        split <;> simp [hb]
      next er b₁ h =>
        have hb : b₁ = b := by have := bfReadRaw_snd b pos W e; rw [h] at this; exact this
        simp [hb]
    | .val (.strct sz ps) opts =>
      rcases h : run n (.flds ps) e pos b with ⟨r, b₁⟩
      have hb : b₁ = b := by have := ih (.flds ps) e pos b; rw [h] at this; exact this
      simp only [run, h]
      cases r with
      | ok v => rcases v with ⟨v, c⟩; simp [hb]
      | error er => simp [hb]
    | .arrR t opts 0 => rfl
    | .arrR t opts (m + 1) =>
      rcases h : run n (.val t opts) e pos b with ⟨r, b₁⟩
      have hb : b₁ = b := by have := ih (.val t opts) e pos b; rw [h] at this; exact this
      simp only [run, h]
      cases r with
      | ok v =>
        rcases v with ⟨v, c⟩
        rcases h₂ : run n (.arrR t opts m) e (jadd pos c) b₁ with ⟨r₂, b₂⟩
        have hb₂ : b₂ = b₁ := by
          have := ih (.arrR t opts m) e (jadd pos c) b₁; rw [h₂] at this; exact this
        simp only [h₂]
        cases r₂ with
        | ok v₂ =>
          rcases v₂ with ⟨v₂, d⟩
          cases v₂ <;> simp [hb, hb₂]
        | error er => simp [hb, hb₂]
      | error er => simp [hb]
    | .flds [] => rfl
    | .flds ((name, t, len, opts) :: rest) =>
      rcases h : (if len = 1 then run n (.val t opts) e pos b
                  else run n (.arrR t opts len) e pos b) with ⟨r, b₁⟩
      have hb : b₁ = b := by
        by_cases hl : len = 1 <;> simp only [hl, if_true, if_false, ite_true, ite_false] at h
        · have := ih (.val t opts) e pos b; rw [h] at this; exact this
        · have := ih (.arrR t opts len) e pos b; rw [h] at this; exact this
      simp only [run, h]
      cases r with
      | ok v =>
        rcases v with ⟨v, c⟩
        rcases h₂ : run n (.flds rest) e (jadd pos c) b₁ with ⟨r₂, b₂⟩
        have hb₂ : b₂ = b₁ := by
          have := ih (.flds rest) e (jadd pos c) b₁; rw [h₂] at this; exact this
        simp only [h₂]
        cases r₂ with
        | ok v₂ =>
          rcases v₂ with ⟨v₂, d⟩
          cases v₂ <;> simp [hb, hb₂]
        | error er => simp [hb, hb₂]
      | error er => simp [hb]

end StructJS
namespace StructJS

/-- C10: every read operation (the interpreter `run` covering
`Struct.readValue`, the field and array loops of `Struct.readStruct`, and
the wrapper `readStructT` covering `Struct.readStruct`/`read`), for every
registered struct or primitive type, every position, and every endianness,
returns the buffer it was given unchanged, whether it succeeds or fails:
the read paths call only DataView getters. -/
theorem c10_read_frame :
    ∀ (fuel : Nat) (t : Ty) (e : Bool) (pos : JNum) (b : Buffer) (cmd : RCmd),
      (readStructT fuel t e pos b).2 = b ∧ (run fuel cmd e pos b).2 = b := by
  intro fuel t e pos b cmd
  constructor
  · cases t with
    | strct sz ps =>
      simp only [readStructT]
      rcases h : run fuel (.flds ps) e pos b with ⟨r, b₁⟩
      have hb : b₁ = b := by
        have := run_snd fuel (.flds ps) e pos b
        rw [h] at this
        exact this
      cases r with
      | ok v => rcases v with ⟨v, c⟩; simp [hb]
      | error er => simp [hb]
    | prim p => rfl
    | bf W => rfl
  · exact run_snd fuel cmd e pos b

/-- C2: for every registered struct, writing at a position that is
negative, NaN, or whose sum with the struct total size exceeds the buffer
length fails with the out-of-bounds RangeError of the pre-flight check in
`Struct.writeStruct`, before any byte is written: the returned buffer is
exactly the input buffer. -/
theorem c2_write_preflight_oob (fuel : Nat) (t : Ty) (v : JSVal) (e : Bool) (pos : JNum)
    (b : Buffer)
    (h : jlt pos (.int 0) = true ∨ jIsNaN pos = true ∨
         jgt (jadd pos (tySizeof t)) (.int b.length) = true) :
    writeStructT fuel t v e pos b = (.error .rangeError, b) := by
  unfold writeStructT
  rcases h with h | h | h
  · simp [h]
  · cases pos with
    | nan => simp [jlt, jgt, jadd, jIsNaN]
    | int n => simp [jIsNaN] at h
  · simp [h]

/-- Witness for C2 at a concrete input: a 2-byte struct written at
position 1 of a 2-byte buffer. -/
theorem c2_write_preflight_oob_witness :
    writeStructT 8 (Ty.strct (.int 2) [("a", .prim .u16, 1, none)]) (.obj [])
      false (.int 1) [7, 9] = (.error .rangeError, [7, 9]) :=
  c2_write_preflight_oob 8 _ _ _ _ _ (Or.inr (Or.inr (by decide)))

end StructJS
namespace StructJS

/-! ## Byte-level lemmas for the round-trip proof -/

theorem getD_set_eq : ∀ (b : List Nat) (i : Nat) (v : Nat), i < b.length →
    (b.set i v).getD i 0 = v
  | [], i, v, h => absurd h (by simp)
  | _ :: _, 0, _, _ => rfl
  | _ :: xs, i + 1, v, h => getD_set_eq xs i v (by simpa using h)

theorem getD_set_ne : ∀ (b : List Nat) (i j : Nat), i ≠ j → ∀ (v : Nat),
    (b.set i v).getD j 0 = b.getD j 0
  | [], _, _, _, _ => rfl
  | _ :: _, 0, 0, h, _ => absurd rfl h
  | _ :: _, 0, _ + 1, _, _ => rfl
  | _ :: _, _ + 1, 0, _, _ => rfl
  | _ :: xs, i + 1, j + 1, h, v => getD_set_ne xs i j (fun hc => h (by rw [hc])) v

theorem getD_drop (b : List Nat) : ∀ (p k : Nat), (b.drop p).getD k 0 = b.getD (p + k) 0 := by
  induction b with
  | nil => intro p k; simp
  | cons x xs ih =>
    intro p k
    cases p with
    | zero => simp
    | succ p => simp [Nat.succ_add, ih p k]

theorem getD_take (b : List Nat) : ∀ (n k : Nat), k < n → (b.take n).getD k 0 = b.getD k 0 := by
  induction b with
  | nil => intro n k _; simp
  | cons x xs ih =>
    intro n k hk
    cases n with
    | zero => exact absurd hk (by simp)
    | succ n =>
      cases k with
      | zero => rfl
      | succ k => simpa using ih n k (by omega)

theorem setBytes_length : ∀ (bs : List Nat) (b : Buffer) (p : Nat),
    (setBytes b p bs).length = b.length
  | [], _, _ => rfl
  | x :: xs, b, p => by
    simp only [setBytes]
    rw [setBytes_length xs]
    simp

theorem setBytes_wf : ∀ (bs : List Nat) (b : Buffer) (p : Nat), WFBuf b →
    WFBuf (setBytes b p bs)
  | [], _, _, h => h
  | x :: xs, b, p, h => by
    refine setBytes_wf xs _ _ ?_
    intro y hy
    rcases List.mem_or_eq_of_mem_set hy with hy | hy
    · exact h y hy
    · subst hy
      exact Nat.mod_lt _ (by omega)

theorem getD_setBytes_out : ∀ (bs : List Nat) (b : Buffer) (p i : Nat),
    (i < p ∨ p + bs.length ≤ i) → (setBytes b p bs).getD i 0 = b.getD i 0
  | [], _, _, _, _ => rfl
  | x :: xs, b, p, i, h => by
    simp only [setBytes]
    rw [getD_setBytes_out xs _ (p + 1) i (by simp at h ⊢; omega)]
    exact getD_set_ne b p i (by simp at h; omega) _

theorem getD_setBytes_in : ∀ (bs : List Nat) (b : Buffer) (p i : Nat),
    p ≤ i → i < p + bs.length → p + bs.length ≤ b.length →
    (setBytes b p bs).getD i 0 = bs.getD (i - p) 0 % 256
  | [], _, _, i, h₁, h₂, _ => by
    simp only [List.length_nil, Nat.add_zero] at h₂
    omega
  | x :: xs, b, p, i, h₁, h₂, h₃ => by
    simp only [setBytes]
    rcases Nat.eq_or_lt_of_le h₁ with rfl | hlt
    · rw [getD_setBytes_out xs _ (p + 1) p (by omega)]
      simp only [Nat.sub_self]
      exact getD_set_eq b p _ (by simp at h₃; omega)
    · rw [getD_setBytes_in xs _ (p + 1) i (by omega) (by simp at h₂ ⊢; omega)
        (by simp at h₃ ⊢; omega)]
      have : i - p = (i - (p + 1)) + 1 := by omega
      rw [this]
      rfl

theorem leNum_lt : ∀ (l : List Nat), (∀ x ∈ l, x < 256) → leNum l < 256 ^ l.length := by
  intro l
  induction l with
  | nil => intro _; simp [leNum]
  | cons x xs ih =>
    intro h
    have hx : x < 256 := h x (by simp)
    have hxs := ih (fun y hy => h y (by simp [hy]))
    simp only [leNum, List.length_cons, pow_succ]
    calc x + 256 * leNum xs < 256 + 256 * leNum xs := by omega
    _ = 256 * (leNum xs + 1) := by ring
    _ ≤ 256 * 256 ^ xs.length := by
        have : leNum xs + 1 ≤ 256 ^ xs.length := hxs
        exact Nat.mul_le_mul_left _ this
    _ = 256 ^ xs.length * 256 := by ring

theorem natLEBytes_leNum : ∀ (l : List Nat), (∀ x ∈ l, x < 256) →
    natLEBytes (leNum l) l.length = l := by
  intro l
  induction l with
  | nil => intro _; rfl
  | cons x xs ih =>
    intro h
    have hx : x < 256 := h x (by simp)
    simp only [leNum, List.length_cons, natLEBytes]
    rw [Nat.add_mul_mod_self_left, Nat.mod_eq_of_lt hx,
        Nat.add_mul_div_left _ _ (by norm_num : (0 : Nat) < 256), Nat.div_eq_of_lt hx]
    simp [ih (fun y hy => h y (by simp [hy]))]

end StructJS
namespace StructJS

/-! ## DataView-level round trip -/

theorem orient_orient (e : Bool) (l : List Nat) : orient e (orient e l) = l := by
  cases e <;> simp [orient]

theorem orient_length (e : Bool) (l : List Nat) : (orient e l).length = l.length := by
  cases e <;> simp [orient]

theorem orient_mem (e : Bool) (l : List Nat) (x : Nat) : x ∈ orient e l ↔ x ∈ l := by
  cases e <;> simp [orient]

theorem slice_wf (b : Buffer) (p n : Nat) (hb : WFBuf b) :
    ∀ x ∈ (b.drop p).take n, x < 256 :=
  fun x hx => hb x (List.drop_subset _ _ (List.take_subset _ _ hx))

theorem slice_length (b : Buffer) (p n : Nat) (h : p + n ≤ b.length) :
    ((b.drop p).take n).length = n := by
  simp only [List.length_take, List.length_drop]
  omega

theorem wf_getD (b : Buffer) (i : Nat) (hb : WFBuf b) (h : i < b.length) :
    b.getD i 0 < 256 := by
  rw [List.getD_eq_getElem b 0 h]
  exact hb _ (List.getElem_mem h)

theorem toIndex_int (p : Nat) : toIndex? (.int (p : Int)) = some p := by
  simp [toIndex?]

theorem pow_256_eq (n : Nat) : (256 : Nat) ^ n = 2 ^ (8 * n) := by
  rw [Nat.pow_mul]

theorem sliceVal_lt (b : Buffer) (p n : Nat) (e : Bool) (hb : WFBuf b)
    (h : p + n ≤ b.length) :
    leNum (orient e ((b.drop p).take n)) < 2 ^ (8 * n) := by
  have hwf : ∀ x ∈ orient e ((b.drop p).take n), x < 256 :=
    fun x hx => slice_wf b p n hb x ((orient_mem e _ x).mp hx)
  have := leNum_lt _ hwf
  rwa [orient_length, slice_length b p n h, pow_256_eq] at this

theorem dvGetUint_ok (b : Buffer) (p n : Nat) (e : Bool) (h : p + n ≤ b.length) :
    dvGetUint b (.int (p : Int)) n e =
      (.ok (leNum (orient e ((b.drop p).take n))), b) := by
  simp [dvGetUint, dvGetBytes, toIndex_int, h]

theorem natLEBytes_leNum_of_len (l : List Nat) (n : Nat) (hl : l.length = n)
    (h : ∀ x ∈ l, x < 256) : natLEBytes (leNum l) n = l := by
  subst hl
  exact natLEBytes_leNum l h

theorem dvSetUint_eq (b b' : Buffer) (p n : Nat) (e : Bool) (w : Int) (hb : WFBuf b)
    (h : p + n ≤ b.length) (hlen : b'.length = b.length)
    (hw : (w % ((2 ^ (8 * n) : Nat) : Int)).toNat = leNum (orient e ((b.drop p).take n))) :
    dvSetUint b' (.int (p : Int)) n e w = (.ok (), setBytes b' p ((b.drop p).take n)) := by
  have hwfsl : ∀ x ∈ orient e ((b.drop p).take n), x < 256 :=
    fun x hx => slice_wf b p n hb x ((orient_mem e _ x).mp hx)
  have hlsl : (orient e ((b.drop p).take n)).length = n := by
    rw [orient_length]
    exact slice_length b p n h
  have hnat : natLEBytes (leNum (orient e ((b.drop p).take n))) n
      = orient e ((b.drop p).take n) := natLEBytes_leNum_of_len _ n hlsl hwfsl
  unfold dvSetUint
  rw [hw, hnat, orient_orient]
  simp only [dvSetBytes, toIndex_int]
  rw [slice_length b p n h]
  simp only [hlen]
  rw [if_pos (by omega)]

theorem int_emod_toNat (u : Nat) (M : Nat) (hu : u < M) :
    (((u : Int)) % ((M : Nat) : Int)).toNat = u := by
  rw [Int.emod_eq_of_lt (by omega) (by exact_mod_cast hu)]
  simp

theorem asSigned_emod_toNat (n u : Nat) (hu : u < 2 ^ (8 * n)) :
    ((asSigned n u) % ((2 ^ (8 * n) : Nat) : Int)).toNat = u := by
  unfold asSigned
  split
  · exact int_emod_toNat u _ hu
  · have : ((u : Int) - ((2 ^ (8 * n) : Nat) : Int)) % ((2 ^ (8 * n) : Nat) : Int)
        = (u : Int) % ((2 ^ (8 * n) : Nat) : Int) := by
      have h₂ := Int.add_mul_emod_self_left (a := (u : Int))
        (b := ((2 ^ (8 * n) : Nat) : Int)) (c := (-1 : Int))
      rwa [Int.mul_neg, Int.mul_one, ← Int.sub_eq_add_neg] at h₂
    rw [this]
    exact int_emod_toNat u _ hu

end StructJS
namespace StructJS

/-- Round trip of every primitive other than bool and string: reading at
`p` yields a value whose write stores back exactly the source byte slice. -/
theorem prim_rt (pt : PrimTy) (s : Nat) (hs : primSizeof pt = .int (s : Int))
    (hnb : pt ≠ .bool) (hns : pt ≠ .string) (b : Buffer) (p : Nat) (e : Bool)
    (hb : WFBuf b) (h : p + s ≤ b.length) :
    ∃ v, readPrim b (.int (p : Int)) pt e = (.ok v, b) ∧
      ∀ b', b'.length = b.length →
        writePrim b' (.int (p : Int)) pt v e = (.ok (), setBytes b' p ((b.drop p).take s)) := by
  cases pt
  case bool => exact absurd rfl hnb
  case string => exact absurd rfl hns
  case u8 =>
    obtain rfl : s = 1 := by simp [primSizeof, JNum.int.injEq] at hs; omega
    refine ⟨.num (leNum (orient e ((b.drop p).take 1))), ?_, ?_⟩
    · simp [readPrim, dvGetUint_ok b p 1 e h]
    · intro b' hlen
      simp only [writePrim]
      exact dvSetUint_eq b b' p 1 e _ hb h hlen
        (int_emod_toNat _ _ (sliceVal_lt b p 1 e hb h))
  case u16 =>
    obtain rfl : s = 2 := by simp [primSizeof, JNum.int.injEq] at hs; omega
    refine ⟨.num (leNum (orient e ((b.drop p).take 2))), ?_, ?_⟩
    · simp [readPrim, dvGetUint_ok b p 2 e h]
    · intro b' hlen
      simp only [writePrim]
      exact dvSetUint_eq b b' p 2 e _ hb h hlen
        (int_emod_toNat _ _ (sliceVal_lt b p 2 e hb h))
  case u32 =>
    obtain rfl : s = 4 := by simp [primSizeof, JNum.int.injEq] at hs; omega
    refine ⟨.num (leNum (orient e ((b.drop p).take 4))), ?_, ?_⟩
    · simp [readPrim, dvGetUint_ok b p 4 e h]
    · intro b' hlen
      simp only [writePrim]
      exact dvSetUint_eq b b' p 4 e _ hb h hlen
        (int_emod_toNat _ _ (sliceVal_lt b p 4 e hb h))
  case u64 =>
    obtain rfl : s = 8 := by simp [primSizeof, JNum.int.injEq] at hs; omega
    refine ⟨.big (leNum (orient e ((b.drop p).take 8))), ?_, ?_⟩
    · simp [readPrim, dvGetUint_ok b p 8 e h]
    · intro b' hlen
      simp only [writePrim]
      exact dvSetUint_eq b b' p 8 e _ hb h hlen
        (int_emod_toNat _ _ (sliceVal_lt b p 8 e hb h))
  case s8 =>
    obtain rfl : s = 1 := by simp [primSizeof, JNum.int.injEq] at hs; omega
    refine ⟨.num (asSigned 1 (leNum (orient e ((b.drop p).take 1)))), ?_, ?_⟩
    · simp [readPrim, dvGetUint_ok b p 1 e h]
    · intro b' hlen
      simp only [writePrim]
      exact dvSetUint_eq b b' p 1 e _ hb h hlen
        (asSigned_emod_toNat 1 _ (sliceVal_lt b p 1 e hb h))
  case s16 =>
    obtain rfl : s = 2 := by simp [primSizeof, JNum.int.injEq] at hs; omega
    refine ⟨.num (asSigned 2 (leNum (orient e ((b.drop p).take 2)))), ?_, ?_⟩
    · simp [readPrim, dvGetUint_ok b p 2 e h]
    · intro b' hlen
      simp only [writePrim]
      exact dvSetUint_eq b b' p 2 e _ hb h hlen
        (asSigned_emod_toNat 2 _ (sliceVal_lt b p 2 e hb h))
  case s32 =>
    obtain rfl : s = 4 := by simp [primSizeof, JNum.int.injEq] at hs; omega
    refine ⟨.num (asSigned 4 (leNum (orient e ((b.drop p).take 4)))), ?_, ?_⟩
    · simp [readPrim, dvGetUint_ok b p 4 e h]
    · intro b' hlen
      simp only [writePrim]
      exact dvSetUint_eq b b' p 4 e _ hb h hlen
        (asSigned_emod_toNat 4 _ (sliceVal_lt b p 4 e hb h))
  case s64 =>
    obtain rfl : s = 8 := by simp [primSizeof, JNum.int.injEq] at hs; omega
    refine ⟨.big (asSigned 8 (leNum (orient e ((b.drop p).take 8)))), ?_, ?_⟩
    · simp [readPrim, dvGetUint_ok b p 8 e h]
    · intro b' hlen
      simp only [writePrim]
      exact dvSetUint_eq b b' p 8 e _ hb h hlen
        (asSigned_emod_toNat 8 _ (sliceVal_lt b p 8 e hb h))
  case float =>
    obtain rfl : s = 4 := by simp [primSizeof, JNum.int.injEq] at hs; omega
    refine ⟨.f32 (leNum (orient e ((b.drop p).take 4))), ?_, ?_⟩
    · simp [readPrim, dvGetUint_ok b p 4 e h]
    · intro b' hlen
      simp only [writePrim]
      exact dvSetUint_eq b b' p 4 e _ hb h hlen
        (int_emod_toNat _ _ (sliceVal_lt b p 4 e hb h))
  case double =>
    obtain rfl : s = 8 := by simp [primSizeof, JNum.int.injEq] at hs; omega
    refine ⟨.f64 (leNum (orient e ((b.drop p).take 8))), ?_, ?_⟩
    · simp [readPrim, dvGetUint_ok b p 8 e h]
    · intro b' hlen
      simp only [writePrim]
      exact dvSetUint_eq b b' p 8 e _ hb h hlen
        (int_emod_toNat _ _ (sliceVal_lt b p 8 e hb h))
  case char =>
    obtain rfl : s = 1 := by simp [primSizeof, JNum.int.injEq] at hs; omega
    refine ⟨.str [leNum (orient e ((b.drop p).take 1))], ?_, ?_⟩
    · simp [readPrim, dvGetUint_ok b p 1 e h]
    · intro b' hlen
      simp only [writePrim]
      exact dvSetUint_eq b b' p 1 e _ hb h hlen
        (int_emod_toNat _ _ (sliceVal_lt b p 1 e hb h))

end StructJS

namespace StructJS

theorem primCount_ne_string (p : PrimTy) (v : JSVal) (hp : p ≠ .string) :
    primCount p v = primSizeof p := by
  cases p <;> first
  | exact absurd rfl hp
  | (cases v <;> rfl)

/-- Round trip of the raw container value of a bitfield read and write. -/
theorem bf_rt (W : Nat) (b : Buffer) (p : Nat) (e : Bool) (hb : WFBuf b)
    (h : p + W / 8 ≤ b.length) :
    ∃ raw, bfReadRaw b (.int (p : Int)) W e = (.ok raw, b) ∧
      (∃ u, raw = .num u ∨ raw = .big u) ∧
      ∀ b', b'.length = b.length →
        bfWriteRaw b' (.int (p : Int)) W raw e =
          (.ok (), setBytes b' p ((b.drop p).take (W / 8))) := by
  by_cases hW : W = 64
  · subst hW
    refine ⟨.big (leNum (orient e ((b.drop p).take 8))), ?_, ⟨_, Or.inr rfl⟩, ?_⟩
    · simp at h
      simp [bfReadRaw, dvGetUint_ok b p 8 e h]
    · intro b' hlen
      simp only [bfWriteRaw, if_pos rfl]
      simp only [show (64 : Nat) / 8 = 8 from rfl] at h ⊢
      exact dvSetUint_eq b b' p 8 e _ hb h hlen
        (int_emod_toNat _ _ (sliceVal_lt b p 8 e hb h))
  · refine ⟨.num (leNum (orient e ((b.drop p).take (W / 8)))), ?_, ⟨_, Or.inl rfl⟩, ?_⟩
    · simp [bfReadRaw, hW, dvGetUint_ok b p (W / 8) e h]
    · intro b' hlen
      simp only [bfWriteRaw, if_neg hW]
      exact dvSetUint_eq b b' p (W / 8) e _ hb h hlen
        (int_emod_toNat _ _ (sliceVal_lt b p (W / 8) e hb h))

end StructJS
namespace StructJS

/-! ## The master round-trip statement -/

theorem jadd_cast (a c : Nat) :
    jadd (.int (a : Int)) (.int (c : Int)) = .int ((a + c : Nat) : Int) := by
  simp [jadd]

theorem jlt_cast_zero (p : Nat) : jlt (.int (p : Int)) (.int 0) = false := by
  simp [jlt]

theorem jgt_cast_false {p sz L : Nat} (h : p + sz ≤ L) :
    jgt (jadd (.int (p : Int)) (.int (sz : Int))) (.int (L : Int)) = false := by
  simp only [jadd, jgt]
  simp only [decide_eq_false_iff_not, not_lt]
  exact_mod_cast h

theorem objGet_cons_self (n : String) (v : JSVal) (fs : List (String × JSVal)) :
    objGet ((n, v) :: fs) n = v := by
  simp [objGet, List.find?]

theorem objGet_cons_ne (n m : String) (v : JSVal) (fs : List (String × JSVal))
    (h : m ≠ n) : objGet ((n, v) :: fs) m = objGet fs m := by
  simp [objGet, List.find?, h, Ne.symm h]

/-- Byte facts for a single written block. -/
theorem setBytes_block (b b' : Buffer) (p s : Nat) (hb : WFBuf b) (hwf' : WFBuf b')
    (hlen' : b'.length = b.length) (h : p + s ≤ b.length) :
    (setBytes b' p ((b.drop p).take s)).length = b'.length ∧
    WFBuf (setBytes b' p ((b.drop p).take s)) ∧
    (∀ i, i < p ∨ p + s ≤ i → getByte (setBytes b' p ((b.drop p).take s)) i = getByte b' i) ∧
    (∀ i, p ≤ i → i < p + s → getByte (setBytes b' p ((b.drop p).take s)) i = getByte b i) := by
  have hsl : ((b.drop p).take s).length = s := slice_length b p s h
  refine ⟨setBytes_length _ _ _, setBytes_wf _ _ _ hwf', ?_, ?_⟩
  · intro i hi
    exact getD_setBytes_out _ _ _ _ (by rw [hsl]; exact hi)
  · intro i h₁ h₂
    have hin := getD_setBytes_in ((b.drop p).take s) b' p i h₁ (by rw [hsl]; omega)
      (by rw [hsl]; omega)
    unfold getByte
    rw [hin, getD_take _ _ _ (by omega), getD_drop, Nat.add_sub_cancel' h₁,
        Nat.mod_eq_of_lt (wf_getD b i hb (by omega))]

/-- Composing two adjacent written blocks. -/
theorem block_comp {b b₁ b₂ b₃ : Buffer} {p s d : Nat}
    (l₂ : b₂.length = b₁.length) (l₃ : b₃.length = b₂.length)
    (o₂ : ∀ i, i < p ∨ p + s ≤ i → getByte b₂ i = getByte b₁ i)
    (i₂ : ∀ i, p ≤ i → i < p + s → getByte b₂ i = getByte b i)
    (o₃ : ∀ i, i < p + s ∨ p + s + d ≤ i → getByte b₃ i = getByte b₂ i)
    (i₃ : ∀ i, p + s ≤ i → i < p + s + d → getByte b₃ i = getByte b i) :
    b₃.length = b₁.length ∧
    (∀ i, i < p ∨ p + (s + d) ≤ i → getByte b₃ i = getByte b₁ i) ∧
    (∀ i, p ≤ i → i < p + (s + d) → getByte b₃ i = getByte b i) := by
  refine ⟨by rw [l₃, l₂], ?_, ?_⟩
  · intro i hi
    rw [o₃ i (by omega), o₂ i (by omega)]
  · intro i h₁ h₂
    by_cases hc : i < p + s
    · rw [o₃ i (by omega), i₂ i (by omega) hc]
    · exact i₃ i (by omega) (by omega)

end StructJS
namespace StructJS

/-! ## Inversion of the validity checker -/

theorem wf_val_prim {n : Nat} {pt : PrimTy} {opts : Option Layout} {sz : Nat}
    (h : wfC (n + 1) (.val (.prim pt) opts) = some sz) :
    primSizeof pt = .int (sz : Int) ∧ pt ≠ .bool ∧ pt ≠ .string := by
  cases pt <;> simp_all [wfC, primSizeof] <;> omega

theorem wf_val_bf {n W : Nat} {opts : Option Layout} {sz : Nat}
    (h : wfC (n + 1) (.val (.bf W) opts) = some sz) :
    ∃ l, opts = some l ∧ l ≠ [] ∧ sumWidths l ≤ W ∧ sz = W / 8 ∧
      (W = 8 ∨ W = 16 ∨ W = 32 ∨ W = 64) := by
  by_cases hW : (W = 8 || W = 16 || W = 32 || W = 64) = true
  · rcases opts with _ | l
    · simp [wfC, hW] at h
    · by_cases hmt : l.isEmpty
      · simp [wfC, hW, hmt] at h
      · by_cases hsum : sumWidths l ≤ W
        · refine ⟨l, rfl, by simpa using hmt, hsum, ?_, by simp at hW; tauto⟩
          simp [wfC, hW, hmt, hsum] at h
          omega
        · simp [wfC, hW, hmt, hsum] at h
  · simp [wfC, hW] at h

theorem wf_val_strct {n : Nat} {sj : JNum} {ps : List Field} {opts : Option Layout} {sz : Nat}
    (h : wfC (n + 1) (.val (.strct sj ps) opts) = some sz) :
    wfC n (.flds ps) = some sz ∧ sj = .int (sz : Int) := by
  rcases hps : wfC n (.flds ps) with _ | m
  · simp [wfC, hps] at h
  · simp only [wfC, hps] at h
    by_cases hsj : sj = .int (m : Int)
    · rw [if_pos hsj] at h
      injection h with h₂
      subst h₂
      exact ⟨rfl, hsj⟩
    · rw [if_neg hsj] at h
      exact Option.noConfusion h

theorem wf_arr_zero {n : Nat} {t : Ty} {opts : Option Layout} {sz : Nat}
    (h : wfC (n + 1) (.arrR t opts 0) = some sz) : sz = 0 := by
  simp [wfC] at h
  omega

theorem wf_arr_succ {n : Nat} {t : Ty} {opts : Option Layout} {m sz : Nat}
    (h : wfC (n + 1) (.arrR t opts (m + 1)) = some sz) :
    ∃ s d, wfC n (.val t opts) = some s ∧ wfC n (.arrR t opts m) = some d ∧ sz = s + d := by
  rcases hv : wfC n (.val t opts) with _ | s <;>
    rcases ha : wfC n (.arrR t opts m) with _ | d <;>
      simp only [wfC, hv, ha] at h <;>
        try exact Option.noConfusion h
  injection h with h₂
  exact ⟨s, d, rfl, rfl, h₂.symm⟩

theorem wf_flds_nil {n : Nat} {sz : Nat} (h : wfC (n + 1) (.flds []) = some sz) : sz = 0 := by
  simp [wfC] at h
  omega

theorem wf_flds_cons {n : Nat} {name : String} {t : Ty} {len : Nat} {opts : Option Layout}
    {rest : List Field} {sz : Nat}
    (h : wfC (n + 1) (.flds ((name, t, len, opts) :: rest)) = some sz) :
    ∃ s d, (if len = 1 then wfC n (.val t opts) else wfC n (.arrR t opts len)) = some s ∧
      wfC n (.flds rest) = some d ∧
      ((rest.map (fun f => f.1)).contains name) = false ∧ sz = s + d := by
  rcases hv : (if len = 1 then wfC n (.val t opts) else wfC n (.arrR t opts len)) with _ | s <;>
    rcases hr : wfC n (.flds rest) with _ | d <;>
      simp only [wfC, hv, hr] at h <;>
        try exact Option.noConfusion h
  by_cases hc : ((rest.map (fun f => f.1)).contains name) = true
  · rw [if_pos hc] at h
    exact Option.noConfusion h
  · rw [if_neg hc] at h
    injection h with h₂
    exact ⟨s, d, rfl, rfl, by simpa using hc, h₂.symm⟩

end StructJS

namespace StructJS

/-- The round-trip induction: a command accepted by the validity checker
reads successfully, without touching the buffer, to a value whose write
(into any same-length well-formed buffer) reproduces exactly the source
bytes of its region and nothing else. -/
theorem rw_master (fuel : Nat) :
    (∀ t opts e p b sz, wfC fuel (.val t opts) = some sz → WFBuf b → p + sz ≤ b.length →
      ∃ v, run fuel (.val t opts) e (.int (p : Int)) b = (.ok (v, .int (sz : Int)), b) ∧
        WriteOK fuel (.valW t opts v) e p b sz) ∧
    (∀ t opts m e p b sz, wfC fuel (.arrR t opts m) = some sz → WFBuf b → p + sz ≤ b.length →
      ∃ vs, run fuel (.arrR t opts m) e (.int (p : Int)) b = (.ok (.arr vs, .int (sz : Int)), b) ∧
        ∀ i w, (∀ k, k < m → vIdx w (i + k) = vs.getD k .undefined) →
          WriteOK fuel (.arrW t opts m i w) e p b sz) ∧
    (∀ ps e p b sz, wfC fuel (.flds ps) = some sz → WFBuf b → p + sz ≤ b.length →
      ∃ fs, run fuel (.flds ps) e (.int (p : Int)) b = (.ok (.obj fs, .int (sz : Int)), b) ∧
        ∀ w, (∀ nm, nm ∈ ps.map (fun f => f.1) → vProp w nm = objGet fs nm) →
          WriteOK fuel (.fldsW ps w) e p b sz) := by
  induction fuel with
  | zero =>
    refine ⟨fun t opts e p b sz hwf => ?_, fun t opts m e p b sz hwf => ?_,
            fun ps e p b sz hwf => ?_⟩ <;> exact Option.noConfusion hwf
  | succ n ih =>
    obtain ⟨ihv, iha, ihf⟩ := ih
    refine ⟨?_, ?_, ?_⟩
    · -- readValue / writeValue
      intro t opts e p b sz hwf hb hpb
      match t with
      | .prim pt =>
        obtain ⟨hsz, hnb, hns⟩ := wf_val_prim hwf
        obtain ⟨v, hread, hwrite⟩ := prim_rt pt sz hsz hnb hns b p e hb hpb
        refine ⟨v, ?_, ?_⟩
        · simp only [run, hread, primCount_ne_string pt v hns, hsz]
        · intro b' hwf' hlen'
          have hw := hwrite b' hlen'
          have hblk := setBytes_block b b' p sz hb hwf' hlen' hpb
          refine ⟨setBytes b' p ((b.drop p).take sz), ?_, hblk.1, hblk.2.1,
            hblk.2.2.1, hblk.2.2.2⟩
          have hhw : hasWrite (.prim pt) = true := by
            cases pt <;> first | exact absurd rfl hns | rfl
          have hgt : jgt (jadd (.int (p : Int)) (.int (sz : Int))) (.int (b'.length : Int))
              = false := jgt_cast_false (by omega)
          simp only [runW, hhw, Bool.not_true, Bool.false_eq_true, if_false, tySizeof, hsz,
            jlt_cast_zero, hgt, Bool.or_self, jIsNaN, hw]
      | .bf W =>
        obtain ⟨l, hopts, hlnil, hsum, hszW, hWs⟩ := wf_val_bf hwf
        subst hopts
        subst hszW
        obtain ⟨raw, hread, ⟨u, hru⟩, hwrite⟩ := bf_rt W b p e hb hpb
        rcases l with _ | ⟨f₀, lr⟩
        · exact absurd rfl hlnil
        refine ⟨.bfval W raw (f₀ :: lr), ?_, ?_⟩
        · simp only [run, hread, Option.getD, bitfieldMk]
          rw [if_neg (by omega)]
        · intro b' hwf' hlen'
          have hw := hwrite b' hlen'
          have hblk := setBytes_block b b' p (W / 8) hb hwf' hlen' hpb
          refine ⟨setBytes b' p ((b.drop p).take (W / 8)), ?_, hblk.1, hblk.2.1,
            hblk.2.2.1, hblk.2.2.2⟩
          have hgt : jgt (jadd (.int (p : Int)) (.int ((W / 8 : Nat) : Int)))
              (.int (b'.length : Int)) = false := jgt_cast_false (by omega)
          simp only [runW, hasWrite, Bool.not_true, Bool.false_eq_true, if_false, tySizeof,
            jlt_cast_zero, hgt, Bool.or_self, jIsNaN, hw]
      | .strct sj ps =>
        obtain ⟨hfl, hsj⟩ := wf_val_strct hwf
        subst hsj
        obtain ⟨fs, hread, hwrite⟩ := ihf ps e p b sz hfl hb hpb
        refine ⟨.obj fs, ?_, ?_⟩
        · simp only [run, hread]
        · intro b' hwf' hlen'
          have hcompat : ∀ nm, nm ∈ ps.map (fun f => f.1) →
              vProp (.obj fs) nm = objGet fs nm := fun nm _ => rfl
          obtain ⟨b₂, hrw, hl2, hwf2, ho2, hi2⟩ := hwrite (.obj fs) hcompat b' hwf' hlen'
          refine ⟨b₂, ?_, hl2, hwf2, ho2, hi2⟩
          have hgt : jgt (jadd (.int (p : Int)) (.int (sz : Int))) (.int (b'.length : Int))
              = false := jgt_cast_false (by omega)
          simp only [runW, hasWrite, Bool.not_true, Bool.false_eq_true, if_false, tySizeof,
            jlt_cast_zero, hgt, Bool.or_self, jIsNaN, hrw]
    · -- the array element loop
      intro t opts m e p b sz hwf hb hpb
      match m with
      | 0 =>
        have hsz := wf_arr_zero hwf
        subst hsz
        refine ⟨[], by simp only [run]; norm_num, ?_⟩
        intro i w hcompat b' hwf' hlen'
        refine ⟨b', by simp only [runW]; norm_num, rfl, hwf', fun j _ => rfl,
          fun j h₁ h₂ => by omega⟩
      | m + 1 =>
        obtain ⟨s, d, hvwf, hawf, hsd⟩ := wf_arr_succ hwf
        subst hsd
        obtain ⟨v, hreadV, hwriteV⟩ := ihv t opts e p b s hvwf hb (by omega)
        obtain ⟨vs, hreadA, hwriteA⟩ := iha t opts m e (p + s) b d hawf hb (by omega)
        refine ⟨v :: vs, ?_, ?_⟩
        · simp only [run, hreadV, jadd_cast, hreadA]
        · intro i w hcompat b' hwf' hlen'
          have hv0 : vIdx w i = v := by
            have := hcompat 0 (by omega)
            simpa using this
          obtain ⟨b₂, hrw1, hl2, hwf2, ho2, hi2⟩ := hwriteV b' hwf' hlen'
          have hcompat' : ∀ k, k < m → vIdx w (i + 1 + k) = vs.getD k .undefined := by
            intro k hk
            have h₁ := hcompat (k + 1) (by omega)
            rw [show i + (k + 1) = i + 1 + k by omega] at h₁
            simpa using h₁
          obtain ⟨b₃, hrw2, hl3, hwf3, ho3, hi3⟩ :=
            hwriteA (i + 1) w hcompat' b₂ hwf2 (by rw [hl2, hlen'])
          obtain ⟨hlen13, hout, hin⟩ := block_comp hl2 hl3 ho2 hi2 ho3 hi3
          refine ⟨b₃, ?_, hlen13, hwf3, hout, hin⟩
          simp only [runW, hv0, hrw1, jadd_cast, hrw2]
    · -- the property loop
      intro ps e p b sz hwf hb hpb
      match ps with
      | [] =>
        have hsz := wf_flds_nil hwf
        subst hsz
        refine ⟨[], by simp only [run]; norm_num, ?_⟩
        intro w hcompat b' hwf' hlen'
        refine ⟨b', by simp only [runW]; norm_num, rfl, hwf', fun j _ => rfl,
          fun j h₁ h₂ => by omega⟩
      | (name, t, len, opts) :: rest =>
        obtain ⟨s, d, hfirst, hrest, hnd, hsd⟩ := wf_flds_cons hwf
        subst hsd
        have hname : name ∉ rest.map (fun f => f.1) := by
          intro hmem
          have htrue := List.elem_eq_true_of_mem hmem
          simp only [List.contains] at hnd
          rw [hnd] at htrue
          exact Bool.noConfusion htrue
        obtain ⟨fs', hreadR, hwriteR⟩ := ihf rest e (p + s) b d hrest hb (by omega)
        by_cases hl1 : len = 1
        · subst hl1
          rw [if_pos rfl] at hfirst
          obtain ⟨v, hreadV, hwriteV⟩ := ihv t opts e p b s hfirst hb (by omega)
          refine ⟨(name, v) :: fs', ?_, ?_⟩
          · simp only [run]
            rw [if_pos trivial]
            simp only [hreadV, jadd_cast, hreadR]
          · intro w hcompat b' hwf' hlen'
            have hvw : vProp w name = v := by
              have h₁ := hcompat name (by simp)
              rw [h₁, objGet_cons_self]
            obtain ⟨b₂, hrw1, hl2, hwf2, ho2, hi2⟩ := hwriteV b' hwf' hlen'
            have hcompat' : ∀ nm, nm ∈ rest.map (fun f => f.1) →
                vProp w nm = objGet fs' nm := by
              intro nm hnm
              have hne : nm ≠ name := fun hceq => hname (hceq ▸ hnm)
              have h₁ := hcompat nm (by simp [hnm])
              rw [h₁, objGet_cons_ne _ _ _ _ hne]
            obtain ⟨b₃, hrw2, hl3, hwf3, ho3, hi3⟩ :=
              hwriteR w hcompat' b₂ hwf2 (by rw [hl2, hlen'])
            obtain ⟨hlen13, hout, hin⟩ := block_comp hl2 hl3 ho2 hi2 ho3 hi3
            refine ⟨b₃, ?_, hlen13, hwf3, hout, hin⟩
            simp only [runW]
            rw [if_pos trivial]
            simp only [hvw, hrw1, jadd_cast, hrw2]
        · rw [if_neg hl1] at hfirst
          obtain ⟨vs, hreadA, hwriteA⟩ := iha t opts len e p b s hfirst hb (by omega)
          refine ⟨(name, .arr vs) :: fs', ?_, ?_⟩
          · simp only [run]
            rw [if_neg hl1]
            simp only [hreadA, jadd_cast, hreadR]
          · intro w hcompat b' hwf' hlen'
            have hvw : vProp w name = .arr vs := by
              have h₁ := hcompat name (by simp)
              rw [h₁, objGet_cons_self]
            have hidx : ∀ k, k < len → vIdx (.arr vs) (0 + k) = vs.getD k .undefined := by
              intro k hk
              simp [vIdx]
            obtain ⟨b₂, hrw1, hl2, hwf2, ho2, hi2⟩ := hwriteA 0 (.arr vs) hidx b' hwf' hlen'
            have hcompat' : ∀ nm, nm ∈ rest.map (fun f => f.1) →
                vProp w nm = objGet fs' nm := by
              intro nm hnm
              have hne : nm ≠ name := fun hceq => hname (hceq ▸ hnm)
              have h₁ := hcompat nm (by simp [hnm])
              rw [h₁, objGet_cons_ne _ _ _ _ hne]
            obtain ⟨b₃, hrw2, hl3, hwf3, ho3, hi3⟩ :=
              hwriteR w hcompat' b₂ hwf2 (by rw [hl2, hlen'])
            obtain ⟨hlen13, hout, hin⟩ := block_comp hl2 hl3 ho2 hi2 ho3 hi3
            refine ⟨b₃, ?_, hlen13, hwf3, hout, hin⟩
            simp only [runW]
            rw [if_neg hl1]
            simp only [hvw, hrw1, jadd_cast, hrw2]

end StructJS

namespace StructJS

/-- C1 (amended): for every resolved struct descriptor accepted by the
validity checker `wfC` — fields of primitive types other than bool (and
other than the variable-length string type, which has no finite totalSize),
fixed arrays, bitfield containers with a wellformed layout, nested structs,
with spec-unique field names — and every endianness, position and
well-formed buffer with `p + totalSize ≤ length`, decoding with
`Struct.readStruct` succeeds without touching the buffer, and encoding the
decoded value with `Struct.writeStruct` into any same-length well-formed
buffer reproduces the bytes of the source on `[p, p + totalSize)` exactly
and leaves all other bytes untouched.  (The original claim also covered
bool; the bool codec reads four bytes but writes one, see the
counterexample.) -/
theorem c1_roundtrip (fuel : Nat) (sj : JNum) (ps : List Field) (e : Bool) (p : Nat)
    (b : Buffer) (sz : Nat)
    (hwf : wfC fuel (.flds ps) = some sz) (hsj : sj = .int (sz : Int))
    (hb : WFBuf b) (hpb : p + sz ≤ b.length) :
    ∃ v, readStructT fuel (.strct sj ps) e (.int (p : Int)) b = (.ok v, b) ∧
      ∀ b', WFBuf b' → b'.length = b.length →
        ∃ b'', writeStructT fuel (.strct sj ps) v e (.int (p : Int)) b' =
            (.ok (.int (sz : Int)), b'') ∧
          b''.length = b'.length ∧
          (∀ i, p ≤ i → i < p + sz → getByte b'' i = getByte b i) ∧
          (∀ i, i < p ∨ p + sz ≤ i → getByte b'' i = getByte b' i) := by
  subst hsj
  obtain ⟨fs, hread, hwrite⟩ := (rw_master fuel).2.2 ps e p b sz hwf hb hpb
  refine ⟨.obj fs, ?_, ?_⟩
  · simp only [readStructT, hread]
  · intro b' hwf' hlen'
    have hcompat : ∀ nm, nm ∈ ps.map (fun f => f.1) →
        vProp (.obj fs) nm = objGet fs nm := fun nm _ => rfl
    obtain ⟨b₂, hrw, hl2, _, ho2, hi2⟩ := hwrite (.obj fs) hcompat b' hwf' hlen'
    refine ⟨b₂, ?_, hl2, hi2, ho2⟩
    have hgt : jgt (jadd (.int (p : Int)) (.int (sz : Int))) (.int (b'.length : Int))
        = false := jgt_cast_false (by omega)
    simp only [writeStructT, tySizeof, jlt_cast_zero, hgt, Bool.or_self, jIsNaN,
      Bool.false_eq_true, if_false, hrw]

/-- C1 counterexample: the claim as stated (covering bool) is false.  The
bool codec reads four bytes (`getUint32`) but its write stores a single
byte (`setUint8(position, Boolean(value))`): reading `[0,0,0,1]`
(big-endian, value true) and writing the result into a fresh zero buffer
yields `[1,0,0,0]`, which differs from the source inside
`[p, p+totalSize)`. -/
theorem c1_bool_counterexample :
    readStructT 8 boolFieldTy false (.int 0) [0, 0, 0, 1]
      = (.ok (.obj [("f", .bool true)]), [0, 0, 0, 1]) ∧
    writeStructT 8 boolFieldTy (.obj [("f", .bool true)]) false (.int 0) [0, 0, 0, 0]
      = (.ok (.int 4), [1, 0, 0, 0]) ∧
    getByte [1, 0, 0, 0] 3 ≠ getByte [0, 0, 0, 1] 3 :=
  ⟨rfl, rfl, by decide⟩

/-- Witness for C1 at a concrete input: the example1 struct over the
example buffer, little-endian at position 0. -/
theorem c1_roundtrip_witness :
    ∃ v, readStructT 16 (.strct (.int 5) exampleFields) true (.int ((0 : Nat) : Int))
        [42, 0, 7, 0, 0xA7] = (.ok v, [42, 0, 7, 0, 0xA7]) ∧
      ∀ b', WFBuf b' → b'.length = ([42, 0, 7, 0, 0xA7] : Buffer).length →
        ∃ b'', writeStructT 16 (.strct (.int 5) exampleFields) v true (.int ((0 : Nat) : Int)) b' =
            (.ok (.int ((5 : Nat) : Int)), b'') ∧
          b''.length = b'.length ∧
          (∀ i, 0 ≤ i → i < 0 + 5 → getByte b'' i = getByte [42, 0, 7, 0, 0xA7] i) ∧
          (∀ i, i < 0 ∨ 0 + 5 ≤ i → getByte b'' i = getByte b' i) :=
  c1_roundtrip 16 (.int 5) exampleFields true 0 [42, 0, 7, 0, 0xA7] 5
    (by decide) (by decide) (by unfold WFBuf; decide) (by decide)

end StructJS

namespace StructJS

/-- C3 counterexample: compiling a schema whose bitfield sub-field widths
sum past the container (5 + 6 > 8) does NOT fail at compile time: the
constructor parses the options, accounts one byte, and registers the
struct.  (No width check exists on the compile path.) -/
theorem c3_compile_succeeds_counterexample :
    (structNew initReg c3Lines "Over").1 = .ok ([c3Prop], .int 1) ∧
    rlookup (structNew initReg c3Lines "Over").2 "Over" = some (.strukt (.int 1) [c3Prop]) :=
  ⟨rfl, rfl⟩

/-- C3 (amended): the width overflow of `Bitfield8{a: 5, b: 6}` is raised
by the Bitfield constructor at decode time, not at compile time:
compilation succeeds and registers the struct, and the first read of the
struct fails with the WidthOverflow error. -/
theorem c3_width_error_at_decode :
    (structNew initReg c3Lines "Over").1 = .ok ([c3Prop], .int 1) ∧
    resolveStruct 8 (structNew initReg c3Lines "Over").2 "Over"
      = .ok (.strct (.int 1) [("x", .bf 8, 1, some [("a", 5), ("b", 6)])]) ∧
    readStructT 8 (.strct (.int 1) [("x", .bf 8, 1, some [("a", 5), ("b", 6)])])
      false (.int 0) [0xFF] = (.error .widthOverflow, [0xFF]) :=
  ⟨rfl, rfl, rfl⟩

/-- C4: the failing input of the code bug.  The Bitfield constructor runs
`Object.values(fields).reduce((sum, l) => sum + l)` with no initial value:
on the empty field layout (the declared default, `fields = {}`) this
throws a TypeError instead of constructing, while layouts that fit succeed
and oversized layouts fail with WidthOverflow as specified. -/
theorem c4_empty_layout_errors :
    bitfieldMk 8 (.num 0) [] = .error .typeError ∧
    bitfieldMk 8 (.num 0) [("a", 3), ("b", 5)] = .ok (.bfval 8 (.num 0) [("a", 3), ("b", 5)]) ∧
    bitfieldMk 8 (.num 0) [("a", 5), ("b", 6)] = .error .widthOverflow :=
  ⟨rfl, rfl, rfl⟩

theorem rlookup_rset_self : ∀ (r : Registry) (k : String) (v : Entry),
    rlookup (rset r k v) k = some v
  | [], k, v => by simp [rset, rlookup, List.find?]
  | (k₁, v₁) :: rest, k, v => by
    by_cases h : k₁ = k
    · subst h
      simp [rset, rlookup, List.find?]
    · simp only [rset, if_neg h]
      have tail := rlookup_rset_self rest k v
      simp only [rlookup, List.find?] at tail ⊢
      rw [show (decide (k₁ = k)) = false by simpa using h]
      exact tail

/-- C7 (amended): compiling a schema under a name that already denotes a
primitive or a registered type fails with the name-conflict error before
reading any line, and leaves the registry exactly as it was; but the other
registration path, `Struct.registerFromClass`, performs no conflict check:
it always succeeds and stores the class under its static name, replacing
any prior registration of that name. -/
theorem c7_name_conflict (reg : Registry) (lines : List (List Char)) (name : String)
    (h : (primNames.map Prod.fst).contains name = true ∨ (rlookup reg name).isSome = true) :
    structNew reg lines name = (.error .nameConflict, reg) ∧
    ∀ cls : Entry, (registerFromClass reg name cls).1 = .ok () ∧
      rlookup (registerFromClass reg name cls).2 name = some cls := by
  constructor
  · rcases h with h | h
    · unfold structNew
      rw [if_pos h]
    · by_cases hc : (primNames.map Prod.fst).contains name = true
      · unfold structNew
        rw [if_pos hc]
      · unfold structNew
        rw [if_neg hc, if_pos h]
  · intro cls
    exact ⟨rfl, rlookup_rset_self reg name cls⟩

/-- Witness for C7 at a concrete input: the primitive name u8. -/
theorem c7_name_conflict_witness :
    structNew initReg [] "u8" = (.error .nameConflict, initReg) ∧
    ∀ cls : Entry, (registerFromClass initReg "u8" cls).1 = .ok () ∧
      rlookup (registerFromClass initReg "u8" cls).2 "u8" = some cls :=
  c7_name_conflict initReg [] "u8" (Or.inl (by decide))

/-- C7 counterexample: the claim as stated is false for the
`registerFromClass` path: registering a class whose static name is the
primitive name u8 succeeds and replaces the primitive in the registry
(no error, prior registration not intact). -/
theorem c7_register_class_overwrites :
    registerFromClass initReg "u8" (.cls (.int 4))
      = (.ok (), rset initReg "u8" (.cls (.int 4))) ∧
    rlookup initReg "u8" = some (.prim .u8) ∧
    rlookup (rset initReg "u8" (.cls (.int 4))) "u8" = some (.cls (.int 4)) ∧
    (Entry.cls (.int 4)) ≠ .prim .u8 :=
  ⟨rfl, rfl, rfl, by decide⟩

end StructJS

namespace StructJS

/-- A line whose declared type is the bare string type makes the
constructor loop throw at that line. -/
theorem compLine_string (reg : Registry) (st : CompState) (l : List Char)
    (nm : List Char) (hparse : parseVarLine (trimC l) = some ("string".data, nm)) :
    compLine reg st l = .error .stringField := by
  have hne : (trimC l).isEmpty = false := by
    cases htl : trimC l with
    | nil =>
      rw [htl] at hparse
      simp [parseVarLine] at hparse
    | cons c cs => rfl
  unfold compLine
  rw [if_neg (by simp [hne]), hparse]
  dsimp only
  rw [if_pos rfl]

/-- The constructor loop fails whenever some remaining line declares a
field of the bare string type (possibly with a different error if an
earlier line is itself rejected first). -/
theorem compLines_string_err : ∀ (lines : List (List Char)) (reg : Registry) (st : CompState),
    (∃ l ∈ lines, ∃ nm, parseVarLine (trimC l) = some ("string".data, nm)) →
    ∃ er, compLines reg lines st = .error er := by
  intro lines
  induction lines with
  | nil =>
    intro reg st h
    simp at h
  | cons l ls ih =>
    intro reg st h
    obtain ⟨l', hl', nm, hparse⟩ := h
    rcases List.mem_cons.mp hl' with rfl | hmem
    · exact ⟨.stringField, by simp only [compLines, compLine_string reg st l' nm hparse]⟩
    · rcases hc : compLine reg st l with er | st₁
      · exact ⟨er, by simp only [compLines, hc]⟩
      · obtain ⟨er, her⟩ := ih reg st₁ ⟨l', hmem, nm, hparse⟩
        exact ⟨er, by simp only [compLines, hc, her]⟩

/-- C8 (amended): compiling a schema (under a fresh name) in which some
field declares the bare scalar type string fails — with the DefinitionError
of the string check when that line is reached, or the DefinitionError of an
earlier invalid line — and the struct is not registered: the registry is
returned unchanged.  (The array form is NOT rejected: see the
counterexample.) -/
theorem c8_bare_string_rejected (reg : Registry) (lines : List (List Char)) (name : String)
    (h₁ : (primNames.map Prod.fst).contains name = false)
    (h₂ : rlookup reg name = none)
    (hstr : ∃ l ∈ lines, ∃ nm, parseVarLine (trimC l) = some ("string".data, nm)) :
    ∃ er, structNew reg lines name = (.error er, reg) := by
  obtain ⟨er, her⟩ := compLines_string_err lines reg ⟨[], .int 0⟩ hstr
  refine ⟨er, ?_⟩
  unfold structNew
  rw [if_neg (by rw [h₁]; simp), if_neg (by rw [h₂]; simp), her]

/-- Witness for C8 at a concrete input. -/
theorem c8_bare_string_rejected_witness :
    ∃ er, structNew initReg ["string s".data] "S9" = (.error er, initReg) :=
  c8_bare_string_rejected initReg ["string s".data] "S9" (by decide) (by decide)
    ⟨"string s".data, by simp, "s".data, by decide⟩

/-- C8 counterexample: the claim as stated is false for the array form.
`string[3] s` passes the bare-string check (which runs before the array
split), the array branch resolves the element type string (present in the
registry), and the struct is registered — with a NaN total size, since the
string sizeof is undefined. -/
theorem c8_string_array_accepted :
    (structNew initReg ["string[3] s".data] "S8").1
      = .ok ([⟨"string", "s", 3, none⟩], .nan) ∧
    rlookup (structNew initReg ["string[3] s".data] "S8").2 "S8"
      = some (.strukt .nan [⟨"string", "s", 3, none⟩]) :=
  ⟨rfl, rfl⟩

/-- C9: compiling the example schema registers MyStruct with total size 5;
resolving and decoding the example buffer little-endian at position 0
yields field1 = 42, field2 = 7 and the bitfield with raw value 0xA700; and
the external JSON projection renders the 1-bit sub-field as the boolean
true and the wider sub-fields as the zero-padded binary strings 0b010 and
0b0111. -/
theorem c9_example :
    (structNew initReg exLines "MyStruct").1
      = .ok ([⟨"u16", "field1", 1, none⟩, ⟨"u8", "field2", 1, none⟩,
              ⟨"Bitfield16", "field3", 1, some [("flagA", 1), ("flagB", 3), ("fieldC", 4)]⟩],
             .int 5) ∧
    resolveStruct 8 (structNew initReg exLines "MyStruct").2 "MyStruct"
      = .ok (.strct (.int 5) exampleFields) ∧
    readStructT 16 (.strct (.int 5) exampleFields) true (.int 0) exBuf = (.ok exVal, exBuf) ∧
    jsonProjF 8 exVal
      = .obj [("field1", .num 42), ("field2", .num 7),
              ("field3", .obj [("flagA", .bool true),
                               ("flagB", .str (strCodes "0b010")),
                               ("fieldC", .str (strCodes "0b0111"))])] :=
  ⟨rfl, rfl, rfl, rfl⟩

end StructJS

namespace StructJS

/-! ## Reduction of the JS 32-bit operators on in-range operands -/

theorem pow32_eq : pow32 = 2 ^ 32 := rfl

theorem toUint32_natCast (n : Nat) : toUint32 (n : Int) = n % 2 ^ 32 := by
  unfold toUint32
  rw [pow32_eq]
  rw [show ((2 ^ 32 : Nat) : Int) = ((2 ^ 32 : Nat) : Int) from rfl]
  rw [show ((n : Int) % ((2 ^ 32 : Nat) : Int)) = ((n % 2 ^ 32 : Nat) : Int) from
    (Int.ofNat_mod_ofNat n (2 ^ 32)).symm]
  exact Int.toNat_ofNat _

theorem int_sub_emod_self (a M : Int) : (a - M) % M = a % M := by
  have h₂ := Int.add_mul_emod_self_left (a := a) (b := M) (c := (-1 : Int))
  rwa [Int.mul_neg, Int.mul_one, ← Int.sub_eq_add_neg] at h₂

theorem toUint32_lt (x : Int) : toUint32 x < 2 ^ 32 := by
  unfold toUint32
  have hpos : (0 : Int) < (pow32 : Int) := by rw [pow32_eq]; positivity
  have h₁ := Int.emod_lt_of_pos x hpos
  have h₂ := Int.emod_nonneg x hpos.ne'
  rw [pow32_eq] at h₁ h₂ ⊢
  omega

theorem toUint32_small {n : Nat} (h : n < 2 ^ 32) : toUint32 (n : Int) = n := by
  rw [toUint32_natCast, Nat.mod_eq_of_lt h]

theorem toInt32_small {n : Nat} (h : n < 2 ^ 31) : toInt32 (n : Int) = n := by
  unfold toInt32
  rw [toUint32_small (by omega)]
  rw [if_pos h]

theorem toUint32_toInt32 (x : Int) : toUint32 (toInt32 x) = toUint32 x := by
  unfold toInt32
  split
  · exact toUint32_small (toUint32_lt x)
  · set u := toUint32 x with hu
    have hult : u < 2 ^ 32 := toUint32_lt x
    show toUint32 ((u : Int) - (pow32 : Int)) = u
    unfold toUint32
    rw [int_sub_emod_self]
    rw [show ((u : Int)) % ((pow32 : Nat) : Int) = ((u % pow32 : Nat) : Int) from
      (Int.ofNat_mod_ofNat _ _).symm]
    rw [Int.toNat_ofNat, Nat.mod_eq_of_lt (by rw [pow32_eq]; exact hult)]

theorem shamt_small {k : Nat} (h : k < 32) : shamt (k : Int) = k := by
  unfold shamt
  rw [toUint32_small (by omega), Nat.mod_eq_of_lt h]

theorem jshl_small {a k : Nat} (ha : a < 2 ^ 32) (hk : k < 32) (hres : a <<< k < 2 ^ 31) :
    jshl (a : Int) (k : Int) = ((a <<< k : Nat) : Int) := by
  unfold jshl
  rw [shamt_small hk, toUint32_small ha, toInt32_small hres]

theorem jshr_small {a k : Nat} (ha : a < 2 ^ 31) (hk : k < 32) :
    jshr (a : Int) (k : Int) = ((a >>> k : Nat) : Int) := by
  unfold jshr
  rw [shamt_small hk, toInt32_small ha, Int.fdiv_eq_ediv _ (by positivity),
    Nat.shiftRight_eq_div_pow]
  exact (Int.ofNat_ediv a (2 ^ k)).symm

theorem jand_small (x y : Int) (h : toUint32 x &&& toUint32 y < 2 ^ 31) :
    jand x y = ((toUint32 x &&& toUint32 y : Nat) : Int) := by
  unfold jand
  rw [toInt32_small h]

theorem jor_small (x y : Int) (h : toUint32 x ||| toUint32 y < 2 ^ 31) :
    jor x y = ((toUint32 x ||| toUint32 y : Nat) : Int) := by
  unfold jor
  rw [toInt32_small h]

theorem jnot_pat (x : Int) : toUint32 (jnot x) = 2 ^ 32 - 1 - toUint32 x := by
  unfold jnot
  rw [toUint32_toInt32, pow32_eq]
  exact toUint32_small (by have := toUint32_lt x; omega)

theorem jshl_pat (x y : Int) : toUint32 (jshl x y) = (toUint32 x <<< shamt y) % 2 ^ 32 := by
  unfold jshl
  rw [toUint32_toInt32, toUint32_natCast]

end StructJS

namespace StructJS

/-! ## Bitfield layout geometry -/

theorem sumWidths_cons (p : String × Nat) (l : Layout) :
    sumWidths (p :: l) = p.2 + sumWidths l := rfl

theorem bfFind_bound {f : String} : ∀ {l : Layout} {a of lf : Nat},
    bfFind l f a = some (of, lf) → a ≤ of ∧ of + lf ≤ a + sumWidths l := by
  intro l
  induction l with
  | nil => intro a of lf h; exact absurd h (by simp [bfFind])
  | cons p rest ih =>
    intro a of lf h
    obtain ⟨n, w⟩ := p
    simp only [bfFind] at h
    by_cases hn : n = f
    · rw [if_pos hn] at h
      obtain ⟨rfl, rfl⟩ : a = of ∧ w = lf := by simpa using h
      rw [sumWidths_cons]
      omega
    · rw [if_neg hn] at h
      have := ih h
      rw [sumWidths_cons]
      omega

theorem bfFind_disjoint {f g : String} (hfg : f ≠ g) :
    ∀ {l : Layout} {a of lf og lg : Nat},
    (l.map Prod.fst).Nodup →
    bfFind l f a = some (of, lf) → bfFind l g a = some (og, lg) →
    of + lf ≤ og ∨ og + lg ≤ of := by
  intro l
  induction l with
  | nil => intro a _ _ _ _ _ hf _; exact absurd hf (by simp [bfFind])
  | cons p rest ih =>
    intro a of lf og lg hnd hf hg
    obtain ⟨n, w⟩ := p
    simp only [bfFind] at hf hg
    simp only [List.map_cons, List.nodup_cons] at hnd
    by_cases hnf : n = f
    · rw [if_pos hnf] at hf
      rw [if_neg (by rw [hnf]; exact hfg)] at hg
      obtain ⟨rfl, rfl⟩ : a = of ∧ w = lf := by simpa using hf
      have := (bfFind_bound hg).1
      left; omega
    · rw [if_neg hnf] at hf
      by_cases hng : n = g
      · rw [if_pos hng] at hg
        obtain ⟨rfl, rfl⟩ : a = og ∧ w = lg := by simpa using hg
        have := (bfFind_bound hf).1
        right; omega
      · rw [if_neg hng] at hg
        exact ih hnd.2 hf hg

end StructJS

namespace StructJS

/-! ## Evaluating the accessors on in-range Number values (widths 8 and 16) -/

theorem jshl_one_sub {len : Nat} (hlen : len ≤ 16) :
    jshl 1 (len : Int) - 1 = ((2 ^ len - 1 : Nat) : Int) := by
  have hres : (1 : Nat) <<< len < 2 ^ 31 := by
    rw [Nat.one_shiftLeft]
    exact lt_of_le_of_lt (Nat.pow_le_pow_right (by norm_num) hlen) (by norm_num)
  have h := jshl_small (a := 1) (k := len) (by norm_num) (by omega) hres
  rw [show ((1 : Nat) : Int) = (1 : Int) from rfl] at h
  rw [h, Nat.one_shiftLeft, Int.ofNat_sub Nat.one_le_two_pow, Nat.cast_one]

theorem jsGet_nat {W n off len : Nat} (hW : W ≤ 16) (hol : off + len ≤ W)
    (hn : n < 2 ^ W) :
    jsGet W (n : Int) off len = ((specGet W n off len : Nat) : Int) := by
  have hsh : ((W : Int) - (off : Int) - (len : Int)) = ((W - off - len : Nat) : Int) := by
    omega
  have hsh32 : W - off - len < 32 := by omega
  have hn16 : n < 2 ^ 16 := lt_of_lt_of_le hn (Nat.pow_le_pow_right (by norm_num) hW)
  have hn31 : n < 2 ^ 31 := by omega
  have hp16 : (2 : Nat) ^ len ≤ 2 ^ 16 := Nat.pow_le_pow_right (by norm_num) (by omega)
  have hlen31 : 2 ^ len - 1 < 2 ^ 31 := by omega
  have ha : n >>> (W - off - len) < 2 ^ 32 := by
    have hle : n >>> (W - off - len) ≤ n := by
      rw [Nat.shiftRight_eq_div_pow]; exact Nat.div_le_self _ _
    omega
  unfold jsGet specGet
  rw [hsh, jshr_small hn31 hsh32, jshl_one_sub (by omega)]
  unfold jand
  rw [toUint32_small ha, toUint32_small (by omega : 2 ^ len - 1 < 2 ^ 32)]
  exact toInt32_small (lt_of_le_of_lt Nat.and_le_right hlen31)

theorem jsSet_char {W off len : Nat} (n v : Nat) (hW : W ≤ 16) (hol : off + len ≤ W)
    (hn : n < 2 ^ W) :
    ∃ nn : Nat, jsSet W (n : Int) off len (v : Int) = (nn : Int) ∧ nn < 2 ^ W ∧
      ∀ i, nn.testBit i =
        if W - off - len ≤ i ∧ i < (W - off - len) + len
        then v.testBit (i - (W - off - len)) else n.testBit i := by
  have hsh : ((W : Int) - (off : Int) - (len : Int)) = ((W - off - len : Nat) : Int) := by
    omega
  have hsh32 : W - off - len < 32 := by omega
  have hp16 : (2 : Nat) ^ len ≤ 2 ^ 16 := Nat.pow_le_pow_right (by norm_num) (by omega)
  have hlen31 : 2 ^ len - 1 < 2 ^ 31 := by omega
  set sh := W - off - len
  have hmW : (2 ^ len - 1) <<< sh < 2 ^ W := by
    rw [Nat.shiftLeft_eq]
    have h1 : (2 : Nat) ^ len - 1 < 2 ^ len := by
      have := Nat.two_pow_pos len; omega
    calc (2 ^ len - 1) * 2 ^ sh < 2 ^ len * 2 ^ sh :=
          mul_lt_mul_of_pos_right h1 (Nat.two_pow_pos sh)
      _ = 2 ^ (len + sh) := (pow_add 2 len sh).symm
      _ ≤ 2 ^ W := Nat.pow_le_pow_right (by norm_num) (by omega)
  have hm16 : (2 ^ len - 1) <<< sh < 2 ^ 16 :=
    lt_of_lt_of_le hmW (Nat.pow_le_pow_right (by norm_num) hW)
  have hm31 : (2 ^ len - 1) <<< sh < 2 ^ 31 := by omega
  have hm32 : (2 ^ len - 1) <<< sh < 2 ^ 32 := by omega
  have hn16 : n < 2 ^ 16 := lt_of_lt_of_le hn (Nat.pow_le_pow_right (by norm_num) hW)
  have hn31 : n < 2 ^ 31 := by omega
  have hn32 : n < 2 ^ 32 := by omega
  refine ⟨(n &&& (2 ^ 32 - 1 - (2 ^ len - 1) <<< sh)) |||
      ((((v % 2 ^ 32) <<< sh) % 2 ^ 32) &&& ((2 ^ len - 1) <<< sh)), ?_, ?_, ?_⟩
  · simp only [jsSet]
    rw [hsh, jshl_one_sub (by omega),
      jshl_small (by omega : 2 ^ len - 1 < 2 ^ 32) hsh32 hm31]
    have hA : jand (n : Int) (jnot (((2 ^ len - 1) <<< sh : Nat) : Int))
        = ((n &&& (2 ^ 32 - 1 - (2 ^ len - 1) <<< sh) : Nat) : Int) := by
      unfold jand
      rw [jnot_pat, toUint32_small hn32, toUint32_small hm32]
      exact toInt32_small (lt_of_le_of_lt Nat.and_le_left hn31)
    have hB : jand (jshl (v : Int) ((sh : Nat) : Int)) (((2 ^ len - 1) <<< sh : Nat) : Int)
        = (((((v % 2 ^ 32) <<< sh) % 2 ^ 32) &&& ((2 ^ len - 1) <<< sh) : Nat) : Int) := by
      unfold jand
      rw [jshl_pat, toUint32_natCast, shamt_small hsh32, toUint32_small hm32]
      exact toInt32_small (lt_of_le_of_lt Nat.and_le_right hm31)
    rw [hA, hB]
    unfold jor
    rw [toUint32_small (lt_of_le_of_lt Nat.and_le_left hn32),
      toUint32_small (lt_of_le_of_lt Nat.and_le_right hm32)]
    exact toInt32_small
      (Nat.or_lt_two_pow (lt_of_le_of_lt Nat.and_le_left hn31)
        (lt_of_le_of_lt Nat.and_le_right hm31))
  · exact Nat.or_lt_two_pow (lt_of_le_of_lt Nat.and_le_left hn)
      (lt_of_le_of_lt Nat.and_le_right hmW)
  · intro i
    have hms : 2 ^ 32 - 1 - (2 ^ len - 1) <<< sh
        = 2 ^ 32 - ((2 ^ len - 1) <<< sh + 1) := by omega
    simp only [Nat.testBit_or, Nat.testBit_and, hms, Nat.testBit_two_pow_sub_succ hm32,
      Nat.testBit_mod_two_pow, Nat.testBit_shiftLeft, Nat.testBit_two_pow_sub_one,
      ge_iff_le]
    by_cases h2 : sh ≤ i
    · by_cases h3 : i < sh + len
      · rw [if_pos ⟨h2, h3⟩]
        have ha1 : i < 32 := by omega
        have ha2 : i - sh < len := by omega
        have ha3 : i - sh < 32 := by omega
        simp [h2, ha1, ha2, ha3]
      · rw [if_neg (by omega)]
        have ha2 : ¬ i - sh < len := by omega
        by_cases hi32 : i < 32
        · simp [h2, ha2, hi32]
        · have hb : n.testBit i = false :=
            Nat.testBit_lt_two_pow
              (lt_of_lt_of_le hn32 (Nat.pow_le_pow_right (by norm_num) (by omega)))
          simp [hi32, hb]
    · rw [if_neg (by omega)]
      have ha1 : i < 32 := by omega
      simp [h2, ha1]

end StructJS

namespace StructJS

/-- C6: for container widths 8 and 16, reading a laid-out sub-field of a
Number-valued bitfield returns exactly the specified value
`(raw >>> (W - bitOffset - width)) &&& (2 ^ width - 1)`, where the bit
offset is the sum of the preceding declared widths (`bfOffsets`), for every
raw value below `2 ^ W`. -/
theorem c6_get_formula {W : Nat} (hW : W = 8 ∨ W = 16) (layout : Layout)
    (hsum : sumWidths layout ≤ W) (f : String) (off len : Nat)
    (hf : bfOffsets layout f = some (off, len)) (n : Nat) (hn : n < 2 ^ W) :
    bfGetF (.bfval W (.num (n : Int)) layout) f
      = .ok ((specGet W n off len : Nat) : Int) := by
  have hW16 : W ≤ 16 := by rcases hW with h | h <;> omega
  have hf' : bfFind layout f 0 = some (off, len) := hf
  have hbd := bfFind_bound hf'
  have hol : off + len ≤ W := by omega
  simp only [bfGetF, hf]
  exact congrArg Except.ok (jsGet_nat hW16 hol hn)

/-- C6 witness: in the example layout `{flagA: 1, flagB: 3, fieldC: 4}` of a
Bitfield16 with raw value 0xA700, the getter of flagB (bit offset 1, width
3) returns the specified shift-and-mask value, which evaluates to 2. -/
theorem c6_get_formula_witness :
    bfGetF (.bfval 16 (.num ((0xA700 : Nat) : Int))
        [("flagA", 1), ("flagB", 3), ("fieldC", 4)]) "flagB"
      = .ok ((specGet 16 0xA700 1 3 : Nat) : Int) ∧
    specGet 16 0xA700 1 3 = 2 :=
  ⟨c6_get_formula (Or.inr rfl) [("flagA", 1), ("flagB", 3), ("fieldC", 4)] (by decide)
      "flagB" 1 3 (by decide) 0xA700 (by decide), by decide⟩

/-- C6 counterexample at width 32: the layout `{a: 32}` is accepted by the
constructor (the widths sum to exactly the container width), the sub-field
`a` has bit offset 0 and width 32, and the spec formula on raw value 1
gives `(1 >>> 0) &&& (2 ^ 32 - 1) = 1`; but the getter computes the mask
`(1 << 32) - 1` with the JS shift count taken mod 32, so the mask collapses
to 0 and the getter returns 0. -/
theorem c6_get_counterexample :
    bitfieldMk 32 (.num 1) [("a", 32)] = .ok (.bfval 32 (.num 1) [("a", 32)]) ∧
    bfOffsets [("a", 32)] "a" = some (0, 32) ∧
    bfGetF (.bfval 32 (.num 1) [("a", 32)]) "a" = .ok 0 ∧
    specGet 32 1 0 32 = 1 :=
  ⟨rfl, rfl, rfl, by decide⟩

/-- C5: for container widths 8 and 16 and a layout with distinct sub-field
names whose widths fit the container, setting sub-field `f` to any unsigned
integer `v` succeeds, produces a raw value below `2 ^ W`, a subsequent get
of `f` returns `v` masked to the width of `f`, a get of every other name is
unchanged (including names absent from the layout, where both sides throw),
and only the bits of the span of `f` change in the raw value. -/
theorem c5_set_get {W : Nat} (hW : W = 8 ∨ W = 16) (layout : Layout)
    (hnd : (layout.map Prod.fst).Nodup) (hsum : sumWidths layout ≤ W)
    (f : String) (off len : Nat) (hf : bfOffsets layout f = some (off, len))
    (n : Nat) (hn : n < 2 ^ W) (v : Nat) :
    ∃ nn : Nat,
      bfSetF (.bfval W (.num (n : Int)) layout) f (v : Int)
        = .ok (.bfval W (.num ((nn : Nat) : Int)) layout) ∧
      nn < 2 ^ W ∧
      bfGetF (.bfval W (.num ((nn : Nat) : Int)) layout) f
        = .ok ((v % 2 ^ len : Nat) : Int) ∧
      (∀ g, g ≠ f →
        bfGetF (.bfval W (.num ((nn : Nat) : Int)) layout) g
          = bfGetF (.bfval W (.num (n : Int)) layout) g) ∧
      (∀ i, i < W - off - len ∨ (W - off - len) + len ≤ i →
        nn.testBit i = n.testBit i) := by
  have hW16 : W ≤ 16 := by rcases hW with h | h <;> omega
  have hf' : bfFind layout f 0 = some (off, len) := hf
  have hbd := bfFind_bound hf'
  have hol : off + len ≤ W := by omega
  obtain ⟨nn, he, hlt, hbit⟩ := jsSet_char n v hW16 hol hn
  refine ⟨nn, ?_, hlt, ?_, ?_, ?_⟩
  · simp only [bfSetF, hf, he]
  · simp only [bfGetF, hf]
    rw [jsGet_nat hW16 hol hlt]
    have hq : specGet W nn off len = v % 2 ^ len := by
      apply Nat.eq_of_testBit_eq
      intro j
      unfold specGet
      simp only [Nat.testBit_and, Nat.testBit_shiftRight, Nat.testBit_two_pow_sub_one,
        Nat.testBit_mod_two_pow]
      by_cases hj : j < len
      · rw [hbit (W - off - len + j), if_pos (by omega),
          show W - off - len + j - (W - off - len) = j from by omega]
        exact Bool.and_comm _ _
      · simp [hj]
    rw [hq]
  · intro g hg
    cases hgo : bfOffsets layout g with
    | none => simp only [bfGetF, hgo]
    | some q =>
      obtain ⟨og, lg⟩ := q
      have hgo' : bfFind layout g 0 = some (og, lg) := hgo
      have hbd2 := bfFind_bound hgo'
      have hol2 : og + lg ≤ W := by omega
      have hdis := bfFind_disjoint (Ne.symm hg) hnd hf' hgo'
      simp only [bfGetF, hgo]
      rw [jsGet_nat hW16 hol2 hlt, jsGet_nat hW16 hol2 hn]
      have hq : specGet W nn og lg = specGet W n og lg := by
        apply Nat.eq_of_testBit_eq
        intro j
        unfold specGet
        simp only [Nat.testBit_and, Nat.testBit_shiftRight, Nat.testBit_two_pow_sub_one]
        by_cases hj : j < lg
        · rw [hbit (W - og - lg + j), if_neg (by omega)]
        · simp [hj]
      rw [hq]
  · intro i hi
    rw [hbit i, if_neg (by omega)]

/-- C5 witness: in the example Bitfield16 layout with raw value 0xA700,
setting flagB (offset 1, width 3) to 13 truncates it to 13 mod 8 = 5, every
other get is unchanged, and the bits outside the span of flagB are
untouched. -/
theorem c5_set_get_witness :
    ∃ nn : Nat,
      bfSetF (.bfval 16 (.num ((0xA700 : Nat) : Int))
          [("flagA", 1), ("flagB", 3), ("fieldC", 4)]) "flagB" ((13 : Nat) : Int)
        = .ok (.bfval 16 (.num ((nn : Nat) : Int))
            [("flagA", 1), ("flagB", 3), ("fieldC", 4)]) ∧
      nn < 2 ^ 16 ∧
      bfGetF (.bfval 16 (.num ((nn : Nat) : Int))
          [("flagA", 1), ("flagB", 3), ("fieldC", 4)]) "flagB"
        = .ok ((13 % 2 ^ 3 : Nat) : Int) ∧
      (∀ g, g ≠ "flagB" →
        bfGetF (.bfval 16 (.num ((nn : Nat) : Int))
            [("flagA", 1), ("flagB", 3), ("fieldC", 4)]) g
          = bfGetF (.bfval 16 (.num ((0xA700 : Nat) : Int))
              [("flagA", 1), ("flagB", 3), ("fieldC", 4)]) g) ∧
      (∀ i, i < 16 - 1 - 3 ∨ (16 - 1 - 3) + 3 ≤ i →
        nn.testBit i = (0xA700 : Nat).testBit i) :=
  c5_set_get (Or.inr rfl) [("flagA", 1), ("flagB", 3), ("fieldC", 4)] (by decide) (by decide)
    "flagB" 1 3 (by decide) 0xA700 (by decide) 13

/-- C5 counterexample at width 32: in the accepted layout `{a: 32}`,
setting `a` to 1 is a no-op — the width-32 mask collapses to 0 under the JS
mod-32 shift count, so the raw value stays 0 — and the subsequent get
returns 0 rather than 1 mod 2 ^ 32 = 1. -/
theorem c5_set_get_counterexample :
    bitfieldMk 32 (.num 0) [("a", 32)] = .ok (.bfval 32 (.num 0) [("a", 32)]) ∧
    bfSetF (.bfval 32 (.num 0) [("a", 32)]) "a" 1 = .ok (.bfval 32 (.num 0) [("a", 32)]) ∧
    bfGetF (.bfval 32 (.num 0) [("a", 32)]) "a" = .ok 0 ∧
    (1 : Nat) % 2 ^ 32 = 1 :=
  ⟨rfl, rfl, rfl, by decide⟩

end StructJS
